import Mathlib

/-!
# Verification of the rbook Rmd → PreTeXt conversion scripts

Shallow embedding of the line-driven Rmd-to-PreTeXt converters of the
`PreTeXtBooks/rbook` repository (`convert_ch6_bayes.py`,
`convert_ch4_statistical_theory.py`, `convert_ch3_intro_r.py`,
`convert_anova_complete.py`, `convert_ch_regression.py`) and proofs about
them.

Python strings are modelled as `List Char` (`Str`).  Python's `re.sub`
calls in these scripts all use patterns of the shape
`OPEN <content> CLOSE` where `<content>` is a (possibly negated-class,
possibly lazy) one-or-more/zero-or-more repetition; such a substitution is
modelled by the generic scanner `subAux`/`subP` below, which mirrors the
regex engine's left-to-right, leftmost-match, non-greedy behaviour
(including the backtracking corner cases: failure at one position means
the engine retries at the next character).  `str.replace` is modelled by
`replaceAll`.  Python lists used as stacks (append/pop at the end) are
modelled with the list *head* as the stack *top*.
-/

set_option maxRecDepth 10000

abbrev Str := List Char

/-- The characters of a `String` literal, used to transcribe Python string
literals. -/
def str (s : String) : Str := s.data

namespace PyStr

/-- `s.startswith p` / matching a literal regex prefix. -/
def startsW : Str → Str → Bool
  | [], _ => true
  | _ :: _, [] => false
  | p :: ps, c :: cs => p == c && startsW ps cs

/-- Python whitespace class `\s` (no newlines occur in processed lines, but
the full class is kept). -/
def isSpace (c : Char) : Bool :=
  c == ' ' || c == '\t' || c == '\n' || c == '\r' || c == '\x0b' || c == '\x0c'

/-- `str.lstrip()`. -/
def lstrip (s : Str) : Str := s.dropWhile isSpace

/-- `str.rstrip()`. -/
def rstrip (s : Str) : Str := (s.reverse.dropWhile isSpace).reverse

/-- `str.strip()`. -/
def strip (s : Str) : Str := rstrip (lstrip s)

/-- `str.upper()` (ASCII). -/
def upper (s : Str) : Str := s.map Char.toUpper

/-- `sep.join(parts)` for a one-string separator. -/
def joinSep (sep : Str) : List Str → Str
  | [] => []
  | [x] => x
  | x :: xs => x ++ sep ++ joinSep sep xs

/-- `' '.join(parts)`. -/
def joinSpace (parts : List Str) : Str := joinSep (str " ") parts

/-- `'\n'.join(parts)`. -/
def joinNL (parts : List Str) : Str := joinSep (str "\n") parts

/-- `str.split(c)` on a single-character separator (`''.split(c) = ['']`). -/
def splitChar (sep : Char) : Str → List Str
  | [] => [[]]
  | c :: cs =>
    if c == sep then
      [] :: splitChar sep cs
    else
      match splitChar sep cs with
      | [] => [[c]]
      | r :: rs => (c :: r) :: rs

/-- `str.split(sep, 1)`: split at the first occurrence only. -/
def splitOnce (sep : Char) : Str → Option (Str × Str)
  | [] => none
  | c :: cs =>
    if c == sep then some ([], cs)
    else match splitOnce sep cs with
      | none => none
      | some (a, b) => some (c :: a, b)

/-- `c in s`. -/
def hasChar (c : Char) (s : Str) : Bool := s.contains c

/-- `pat in s` for a multi-character pattern (substring test). -/
def hasSub (pat : Str) : Str → Bool
  | [] => startsW pat []
  | c :: cs => startsW pat (c :: cs) || hasSub pat cs

/-- `str.replace(pat, rep)` with `pat ≠ ''`: left-to-right, non-overlapping,
replacements are not rescanned.  Fuel-driven so that it reduces in the
kernel; `fuel = s.length` always suffices. -/
def replaceAllAux (pat rep : Str) : Nat → Str → Str
  | 0, s => s
  | _ + 1, [] => []
  | n + 1, c :: cs =>
    if startsW pat (c :: cs) then
      rep ++ replaceAllAux pat rep n ((c :: cs).drop pat.length)
    else
      c :: replaceAllAux pat rep n cs

def replaceAll (pat rep s : Str) : Str := replaceAllAux pat rep s.length s

/-- Decimal digit character. -/
def digitChar (d : Nat) : Char :=
  if d = 0 then '0' else if d = 1 then '1' else if d = 2 then '2'
  else if d = 3 then '3' else if d = 4 then '4' else if d = 5 then '5'
  else if d = 6 then '6' else if d = 7 then '7' else if d = 8 then '8' else '9'

def natStrAux : Nat → Nat → Str
  | 0, _ => []
  | f + 1, n =>
    if n < 10 then [digitChar n]
    else natStrAux f (n / 10) ++ [digitChar (n % 10)]

/-- Python `str(i)` for a natural number. -/
def natStr (n : Nat) : Str := natStrAux (n + 1) n

end PyStr

namespace Rx

open PyStr

/-- A substitution pattern of the shape `OPEN content CLOSE`, where the
content is a repetition of characters not satisfying `bad` of length at
least `minLen`, and the match may carry a one-character lookbehind
(`lbOK`, applied to the character before the match, `none` at the start of
the string) and a one-character lookahead (`laOK`, applied to the
character after the close, `none` at the end). -/
structure Pat where
  op : Str
  cl : Str
  bad : Char → Bool
  minLen : Nat
  lbOK : Option Char → Bool
  laOK : Option Char → Bool

/-- A plain pattern with no character-class restriction and no lookaround
(regex `OPEN (.+?) CLOSE` or `OPEN (.*?) CLOSE`). -/
def Pat.plain (op cl : Str) (minLen : Nat := 1) : Pat :=
  ⟨op, cl, fun _ => false, minLen, fun _ => true, fun _ => true⟩

/-- A pattern whose content class excludes the characters of `excl`
(regex `OPEN ([^excl]+) CLOSE`, greedy or lazy — they agree because the
class excludes the first close character). -/
def Pat.classy (op cl : Str) (excl : List Char) (minLen : Nat := 1) : Pat :=
  ⟨op, cl, fun c => excl.contains c, minLen, fun _ => true, fun _ => true⟩

/-- Search for the earliest close of `p` in `s`; `acc` is the reversed
content so far.  Mirrors lazy matching: at every position the close is
tried first (once `minLen` content characters have been seen), then a
`bad` character aborts the whole match attempt, otherwise the character
joins the content. -/
def findCl (p : Pat) : Str → Str → Option (Str × Str)
  | [], _ => none
  | c :: rest, acc =>
    if p.minLen ≤ acc.length ∧ startsW p.cl (c :: rest) ∧
        p.laOK (((c :: rest).drop p.cl.length).head?) then
      some (acc.reverse, (c :: rest).drop p.cl.length)
    else if p.bad c then none
    else findCl p rest (c :: acc)

/-- Does a match of `p` start exactly here (`prev` = preceding character)?
Returns the content group and the remainder after the close. -/
def matchAt (p : Pat) (prev : Option Char) (s : Str) : Option (Str × Str) :=
  if p.lbOK prev ∧ startsW p.op s then findCl p (s.drop p.op.length) [] else none

/-- One `re.sub` pass over a generic single-position matcher `m`: scan
left to right, at each position try `m prev suffix`; on success
(`some (replacement, rest, prevAfter)`) emit the replacement and continue
after the match, otherwise emit the character and move one position.
Fuel-driven (`fuel = s.length` suffices since every step consumes at
least one input character). -/
def subMAux (m : Option Char → Str → Option (Str × Str × Option Char)) :
    Nat → Option Char → Str → Str
  | 0, _, s => s
  | _ + 1, _, [] => []
  | n + 1, prev, c :: cs =>
    match m prev (c :: cs) with
    | some (rep, rest, p') => rep ++ subMAux m n p' rest
    | none => c :: subMAux m n (some c) cs

def subM (m : Option Char → Str → Option (Str × Str × Option Char)) (s : Str) : Str :=
  subMAux m s.length none s

/-- The matcher of a `Pat`-shaped substitution with replacement `mk ∘ group1`. -/
def patM (p : Pat) (mk : Str → Str) (prev : Option Char) (s : Str) :
    Option (Str × Str × Option Char) :=
  match matchAt p prev s with
  | some (cnt, rest) => some (mk cnt, rest, p.cl.getLast?)
  | none => none

/-- `re.sub(pattern, mk ∘ group1, s)` for a `Pat`-shaped pattern. -/
def subP (p : Pat) (mk : Str → Str) (s : Str) : Str := subM (patM p mk) s

/-- A protect pass: like `subP` but each match is replaced by the token
`tokenOf i` (where `i` counts matches so far, continuing from the length
of `parts`), and `store content` is appended to `parts`.  Mirrors the
`save_code` / `save_inline_math` / … callbacks. -/
def subSaveAux (p : Pat) (store : Str → Str) (tokenOf : Nat → Str) :
    Nat → Option Char → Str → List Str → Str × List Str
  | 0, _, s, parts => (s, parts)
  | _ + 1, _, [], parts => ([], parts)
  | n + 1, prev, c :: cs, parts =>
    match matchAt p prev (c :: cs) with
    | some (cnt, rest) =>
      let r := subSaveAux p store tokenOf n (p.cl.getLast?) rest (parts ++ [store cnt])
      (tokenOf parts.length ++ r.1, r.2)
    | none =>
      let r := subSaveAux p store tokenOf n (some c) cs parts
      (c :: r.1, r.2)

def subSave (p : Pat) (store : Str → Str) (tokenOf : Nat → Str) (s : Str) :
    Str × List Str :=
  subSaveAux p store tokenOf s.length none s []

/-- A protect pass whose parts list continues an earlier one (used when two
protect passes share one placeholder table, as in `convert_ch3_intro_r.py`
where display and inline math share `math_parts`). -/
def subSaveFrom (p : Pat) (store : Str → Str) (tokenOf : Nat → Str) (s : Str)
    (parts : List Str) : Str × List Str :=
  subSaveAux p store tokenOf s.length none s parts

/-- The restore loops `for i, x in enumerate(parts): text = text.replace(tokenOf i, wrap x)`. -/
def restoreAux (tokenOf : Nat → Str) (wrap : Str → Str) : Nat → List Str → Str → Str
  | _, [], t => t
  | i, x :: xs, t => restoreAux tokenOf wrap (i + 1) xs (replaceAll (tokenOf i) (wrap x) t)

def restore (tokenOf : Nat → Str) (wrap : Str → Str) (parts : List Str) (t : Str) : Str :=
  restoreAux tokenOf wrap 0 parts t

end Rx

namespace Rx

open PyStr

/-- The lookaround underscore-italic pattern `(?<![_\w])_([^_]+?)_(?![_\w])`. -/
def underIt : Pat :=
  ⟨str "_", str "_", fun c => c == '_', 1,
    fun p => match p with
      | none => true
      | some c => !(c == '_' || c.isAlphanum),
    fun p => match p with
      | none => true
      | some c => !(c == '_' || c.isAlphanum)⟩

end Rx

namespace Py

open PyStr

/-- A Python dictionary value in the converter scripts (either a string
from parameter parsing or the boolean `True`). -/
inductive PVal where
  | pstr (s : Str)
  | pbool (b : Bool)
deriving DecidableEq, Repr

/-- Python truthiness of a parameter value. -/
def PVal.truthy : PVal → Bool
  | .pstr s => !s.isEmpty
  | .pbool b => b

/-- A Python `dict` with string keys (`self.code_block_params`). -/
abbrev Dict := List (Str × PVal)

def dget (d : Dict) (k : Str) : Option PVal :=
  match d.find? (fun e => e.1 == k) with
  | some e => some e.2
  | none => none

def dset (d : Dict) (k : Str) (v : PVal) : Dict :=
  match d with
  | [] => [(k, v)]
  | (k', v') :: rest => if k' == k then (k, v) :: rest else (k', v') :: dset rest k v

/-- `d.get(k, False)` followed by Python truthiness. -/
def dtruthy (d : Dict) (k : Str) : Bool :=
  match dget d k with
  | some v => v.truthy
  | none => false

/-- `str.split(sep)` for a multi-character separator. -/
def splitSubAux (sep : Str) : Nat → Str → List Str
  | 0, s => [s]
  | _ + 1, [] => [[]]
  | n + 1, c :: cs =>
    if startsW sep (c :: cs) then
      [] :: splitSubAux sep n ((c :: cs).drop sep.length)
    else
      match splitSubAux sep n cs with
      | [] => [[c]]
      | r :: rs => (c :: r) :: rs

def splitSub (sep : Str) (s : Str) : List Str := splitSubAux sep s.length s

/-- `xs[-1] += …` on a Python list (no-op on the empty list, which the
scripts never reach on the inputs considered). -/
def modifyLast (f : Str → Str) : List Str → List Str
  | [] => []
  | [x] => [f x]
  | x :: xs => x :: modifyLast f xs

end Py

namespace Heading

open PyStr

/-- Earliest occurrence of a well-formed `{#id}` group (`id` nonempty and
`}`-free) anywhere in `s`; returns the prefix before it and the id.
A `{#` with no well-formed closing is skipped, as the lazy title of the
heading regexes absorbs it. -/
def braceFind : Str → Option (Str × Str)
  | [] => none
  | c :: cs =>
    if startsW (str "\x7b#") (c :: cs) then
      let after := (c :: cs).drop 2
      let i := after.takeWhile (fun x => !(x == '}'))
      if !i.isEmpty && (after.drop i.length).head? == some '}' then
        some ([], i)
      else
        match braceFind cs with
        | some (t, i') => some (c :: t, i')
        | none => none
    else
      match braceFind cs with
      | some (t, i') => some (c :: t, i')
      | none => none

/-- A well-formed `{#id}` group sitting exactly at the start of `s`. -/
def braceAt0 (s : Str) : Option Str :=
  if startsW (str "\x7b#") s then
    let after := s.drop 2
    let i := after.takeWhile (fun x => !(x == '}'))
    if !i.isEmpty && (after.drop i.length).head? == some '}' then some i else none
  else none

/-- Earliest split `s = pre ++ "{#" ++ id ++ "}"` where the group is a
*suffix* of `s` (for the `$`-anchored section patterns); `pre` may be
empty. -/
def sfxBraceAny : Str → Option (Str × Str)
  | [] => none
  | c :: cs =>
    if startsW (str "\x7b#") (c :: cs) then
      let after := (c :: cs).drop 2
      let i := after.takeWhile (fun x => !(x == '}'))
      if !i.isEmpty && after.drop i.length == ['}'] then
        some ([], i)
      else
        match sfxBraceAny cs with
        | some (t, i') => some (c :: t, i')
        | none => none
    else
      match sfxBraceAny cs with
      | some (t, i') => some (c :: t, i')
      | none => none

/-- `re.match(r'#\s+(.+?)\{#([^}]+)\}', line)`: the chapter heading
pattern of `convert_ch6_bayes.py` (and `convert_ch_regression.py`).
Returns the raw title group and the id.  Mirrors the regex engine's
preferences: maximal leading whitespace first, then the earliest
well-formed `{#…}` group with a nonempty title; if the only well-formed
group starts immediately after the whitespace the engine backtracks one
whitespace character into the title (possible only when there are at
least two). -/
def parseChapter (line : Str) : Option (Str × Str) :=
  match line with
  | '#' :: full =>
    let w := full.takeWhile isSpace
    if w.isEmpty then none
    else
      match full.drop w.length with
      | [] => none
      | r0 :: rtail =>
        match braceFind rtail with
        | some (t, i) => some (r0 :: t, i)
        | none =>
          if 2 ≤ w.length then
            match braceAt0 (r0 :: rtail) with
            | some i => some ([w.getLastD ' '], i)
            | none => none
          else none
  | _ => none

/-- `re.match(r'#+\s+(.+?)(?:\{#([^}]+)\})?$', afterHashes-form)`: the
`$`-anchored section/subsection patterns of `convert_ch6_bayes.py` and
`convert_ch_regression.py`, applied to the part of the line after the
hash marks.  Returns the raw title group and the optional id. -/
def parseSecTail (full : Str) : Option (Str × Option Str) :=
  let w := full.takeWhile isSpace
  if w.isEmpty then none
  else
    match full.drop w.length with
    | [] => if 2 ≤ w.length then some ([w.getLastD ' '], none) else none
    | r0 :: rtail =>
      match sfxBraceAny rtail with
      | some (t, i) => some (r0 :: t, some i)
      | none => some (r0 :: rtail, none)

/-- `re.match(r'^(#{1,4})\s+(.+?)(?:\{#([^}]+)\})?\s*$', line)`: the
heading pattern of `convert_ch4_statistical_theory.py` (and the
near-identical one of `convert_anova_complete.py` with `#{2,}`).
Returns (level, raw title group, optional id). -/
def parseHeadingTail (full : Str) : Option (Str × Option Str) :=
  let w := full.takeWhile isSpace
  if w.isEmpty then none
  else
    let rest := full.drop w.length
    let core := rstrip rest
    match core with
    | [] => if 2 ≤ w.length then some ([w.getLastD ' '], none) else none
    | r0 :: rtail =>
      match sfxBraceAny rtail with
      | some (t, i) => some (r0 :: t, some i)
      | none => some (r0 :: rtail, none)

def parseHeading (line : Str) : Option (Nat × Str × Option Str) :=
  let hs := line.takeWhile (fun c => c == '#')
  if 1 ≤ hs.length ∧ hs.length ≤ 4 then
    match parseHeadingTail (line.drop hs.length) with
    | some (t, i) => some (hs.length, t, i)
    | none => none
  else none

end Heading

section MachineryChecks

open PyStr Rx Heading

example : replaceAll (str "&") (str "&amp;") (str "a&b") = str "a&amp;b" := by decide
example : subP (Pat.plain (str "**") (str "**")) (fun c => str "<em>" ++ c ++ str "</em>")
    (str "a **b** c") = str "a <em>b</em> c" := by decide
example : subP (Pat.plain (str "__") (str "__")) (fun c => str "<em>" ++ c ++ str "</em>")
    (str "___LITERAL_DOLLAR___") = str "<em>_LITERAL_DOLLAR</em>_" := by decide
example : subP (Pat.classy (str "***") (str "***") ['*'])
    (fun c => str "<term>" ++ c ++ str "</term>") (str "****a***") =
    str "*<term>a</term>" := by decide
example : subP (Pat.plain (str "***") (str "***"))
    (fun c => str "<em>" ++ c ++ str "</em>") (str "****x***") =
    str "<em>*x</em>" := by decide
example : subP (Pat.plain (str "$$") (str "$$")) (fun c => str "[D:" ++ c ++ str "]")
    (str "$$$$a$$") = str "[D:$$a]" := by decide
example : subP (Pat.plain (str "$$") (str "$$")) (fun c => str "[D:" ++ c ++ str "]")
    (str "$$$$") = str "$$$$" := by decide
example : subP (Pat.classy (str "$") (str "$") ['$']) (fun c => str "[M:" ++ c ++ str "]")
    (str "$$a$") = str "$[M:a]" := by decide
example : subP (Pat.classy (str "`") (str "`") ['`']) (fun c => str "[C:" ++ c ++ str "]")
    (str "``a`") = str "`[C:a]" := by decide

example : subP underIt (fun c => str "<em>" ++ c ++ str "</em>") (str "_a _b_") =
    str "_a <em>b</em>" := by decide
example : subP underIt (fun c => str "<em>" ++ c ++ str "</em>")
    (str "<em>_LITERAL_DOLLAR</em>_") = str "<em>_LITERAL_DOLLAR</em>_" := by decide

-- heading parses, cross-checked against CPython's `re`
example : parseChapter (str "# T {#t}") = some (str "T ", str "t") := by decide
example : parseChapter (str "# A {#x} {#y}") = some (str "A ", str "x") := by decide
example : parseChapter (str "# T") = none := by decide
example : parseChapter (str "# {#x}") = none := by decide
example : parseChapter (str "#  {#x}") = some (str " ", str "x") := by decide
example : parseChapter (str "#   {#a} {#b}") = some (str "{#a} ", str "b") := by decide
example : parseSecTail (str " A") = some (str "A", none) := by decide
example : parseSecTail (str " A {#x}") = some (str "A ", some (str "x")) := by decide
example : parseSecTail (str " A {#x} ") = some (str "A {#x} ", none) := by decide
example : parseSecTail (str " {#x}") = some (str "{#x}", none) := by decide
example : parseSecTail (str " A {#x} b {#y}") = some (str "A {#x} b ", some (str "y")) := by
  decide
example : parseSecTail (str "   ") = some (str " ", none) := by decide
example : parseHeading (str "## A") = some (2, str "A", none) := by decide
example : parseHeading (str "##  ") = some (2, str " ", none) := by decide
example : parseHeading (str "## A  ") = some (2, str "A", none) := by decide
example : parseHeading (str "## a {#x} b {#y}") = some (2, str "a {#x} b ", some (str "y")) := by
  decide
example : parseHeading (str "## {#x}") = some (2, str "{#x}", none) := by decide
example : parseHeading (str "#####  x") = none := by decide
example : parseHeading (str "##\ta") = some (2, str "a", none) := by decide

end MachineryChecks

/-!
## `convert_ch6_bayes.py` — the `RmdToPreTeXt` class

A faithful embedding of the converter: `escape_xml_text`,
`convert_inline_formatting` (with an explicit recursion-depth fuel for the
footnote recursion; the source recurses without a bound), the four flush
methods, `process_line`, and the `convert` driver (minus file I/O: it maps
the list of input lines, already stripped of trailing newlines, to the
list of output elements). -/

namespace Bayes

open PyStr Rx Py Heading

/-- `RmdToPreTeXt.escape_xml_text`. -/
def escapeXmlText (t : Str) : Str :=
  replaceAll (str ">") (str "&gt;")
    (replaceAll (str "<") (str "&lt;")
      (replaceAll (str "&") (str "&amp;") t))

def emWrap (c : Str) : Str := str "<em>" ++ c ++ str "</em>"

def codeTok (i : Nat) : Str := str "~~~CODE" ++ natStr i ++ str "~~~"
def dispTok (i : Nat) : Str := str "~~~DISPMATH" ++ natStr i ++ str "~~~"
def mathTok (i : Nat) : Str := str "~~~MATH" ++ natStr i ++ str "~~~"
def litDollar : Str := str "___LITERAL_DOLLAR___"

/-- The `save_display_math` callback: the stored part is the final
`<me>…</me>` form, CDATA-wrapped when the content needs escaping. -/
def dispStore (cnt : Str) : Str :=
  let c := strip cnt
  if hasChar '&' c || hasChar '<' c || hasChar '>' c || hasSub (str "\\begin") c then
    str "<me><![CDATA[" ++ c ++ str "]]></me>"
  else
    str "<me>" ++ c ++ str "</me>"

/-- The `save_inline_math` callback. -/
def mathStore (cnt : Str) : Str :=
  if hasChar '&' cnt || hasChar '<' cnt || hasChar '>' cnt then
    str "<m><![CDATA[" ++ cnt ++ str "]]></m>"
  else
    str "<m>" ++ cnt ++ str "</m>"

def xrefMk (c : Str) : Str := str "<xref ref=\"" ++ c ++ str "\"/>"

/-- One level of `convert_inline_formatting`, parameterised by the
function used for the recursive footnote call (`fn`, applied when
`useFn`). -/
def convertInlineCore (fn : Str → Str) (useFn : Bool) (escape : Bool) (text : Str) : Str :=
  let text := replaceAll (str "\\$") litDollar text
  let (text, codeParts) := subSave (Pat.classy (str "`") (str "`") ['`']) id codeTok text
  let (text, dispParts) := subSave (Pat.plain (str "$$") (str "$$")) dispStore dispTok text
  let (text, mathParts) := subSave (Pat.classy (str "$") (str "$") ['$']) mathStore mathTok text
  let text := if escape then escapeXmlText text else text
  let text := subP (Pat.plain (str "***") (str "***")) emWrap text
  let text := subP (Pat.plain (str "**_") (str "_**")) emWrap text
  let text := subP (Pat.plain (str "_**") (str "**_")) emWrap text
  let text := subP (Pat.plain (str "**") (str "**")) emWrap text
  let text := subP (Pat.plain (str "__") (str "__")) emWrap text
  let text := subP (Pat.classy (str "*") (str "*") ['*']) emWrap text
  let text := subP underIt emWrap text
  let text := subP (Pat.classy (str "\\@ref(") (str ")") [')']) xrefMk text
  let text :=
    if useFn then
      subP (Pat.classy (str "^[") (str "]") [']'])
        (fun c => str "<fn>" ++ fn c ++ str "</fn>") text
    else text
  let text := restore dispTok id dispParts text
  let text := restore mathTok id mathParts text
  let text := restore codeTok (fun c => str "<c>" ++ c ++ str "</c>") codeParts text
  replaceAll litDollar (str "$") text

/-- `RmdToPreTeXt.convert_inline_formatting`, with fuel bounding the
footnote recursion depth (at fuel 0 the footnote pass is skipped; the
theorem `spec_footnote_recursion_bounded` shows every fuel ≥ 1 computes
the same function, so the fuel is not observable). -/
def convertInline : Nat → Bool → Str → Str
  | 0, esc, t => convertInlineCore id false esc t
  | n + 1, esc, t => convertInlineCore (convertInline n false) true esc t

/-- `convert_inline_formatting(text)` as called by the flush methods. -/
def fmt (esc : Bool) (t : Str) : Str := convertInline (t.length + 1) esc t

/-- The mutable state of a `RmdToPreTeXt` instance.  The Python list
`section_stack` grows and shrinks at its end; here the list *head* is the
stack top. -/
structure St where
  output : List Str := []
  in_code_block : Bool := false
  code_block_lines : List Str := []
  code_block_params : Dict := []
  in_paragraph : Bool := false
  paragraph_lines : List Str := []
  in_list : Bool := false
  list_lines : List Str := []
  list_type : Option Str := none
  in_blockquote : Bool := false
  blockquote_lines : List Str := []
  section_stack : List Str := []
deriving Repr, DecidableEq

def initSt : St := {}

/-- `RmdToPreTeXt.flush_paragraph`. -/
def flushParagraph (s : St) : St :=
  if s.paragraph_lines.isEmpty then s
  else
    { s with
      output := s.output ++
        [str "    <p>" ++ fmt true (joinSpace s.paragraph_lines) ++ str "</p>"],
      paragraph_lines := [], in_paragraph := false }

/-- `RmdToPreTeXt.flush_blockquote`. -/
def flushBlockquote (s : St) : St :=
  if s.blockquote_lines.isEmpty then s
  else
    let content := fmt true (joinSpace s.blockquote_lines)
    let parts := splitSub (str "<mdash/>") content
    let es :=
      match parts with
      | [a, b] =>
        [str "    <blockquote>",
         str "      <p>" ++ strip a ++ str "</p>",
         str "      <attribution>" ++ strip b ++ str "</attribution>",
         str "    </blockquote>"]
      | _ =>
        [str "    <blockquote>",
         str "      <p>" ++ content ++ str "</p>",
         str "    </blockquote>"]
    { s with output := s.output ++ es, blockquote_lines := [], in_blockquote := false }

/-- `RmdToPreTeXt.flush_list`. -/
def flushList (s : St) : St :=
  if s.list_lines.isEmpty then s
  else
    let tag := if s.list_type == some (str "unordered") then str "ul" else str "ol"
    { s with
      output := s.output ++ [str "    <" ++ tag ++ str ">"] ++
        s.list_lines.map
          (fun item => str "      <li><p>" ++ fmt true item ++ str "</p></li>") ++
        [str "    </" ++ tag ++ str ">"],
      list_lines := [], in_list := false, list_type := none }

/-- `RmdToPreTeXt.flush_code_block`. -/
def flushCodeBlock (s : St) : St :=
  if s.code_block_lines.isEmpty then s
  else
    let isOutput := dtruthy s.code_block_params (str "output")
    let code := joinNL s.code_block_lines
    let es :=
      if isOutput then
        [str "    <pre>", code, str "    </pre>"]
      else
        [str "    <program language=\"r\">", str "      <input><![CDATA[", code,
         str "]]></input>", str "    </program>"]
    { s with
      output := s.output ++ es,
      code_block_lines := [], in_code_block := false, code_block_params := [] }

/-- `re.search(r'```\{r\s+([^}]*)\}', line)`, returning the parameter
group of the first match. -/
def rparamsAt (s : Str) : Option Str :=
  if startsW (str "```\x7br") s then
    let rest := s.drop 5
    let w := rest.takeWhile isSpace
    if w.isEmpty then none
    else
      let rest2 := rest.drop w.length
      let cnt := rest2.takeWhile (fun c => !(c == '}'))
      if (rest2.drop cnt.length).head? == some '}' then some cnt else none
  else none

def findRParams : Str → Option Str
  | [] => none
  | c :: cs =>
    match rparamsAt (c :: cs) with
    | some g => some g
    | none => findRParams cs

/-- The parameter-parsing loop of the ```` ```{r …} ```` branch. -/
def parseParams (ps : Str) (d : Dict) : Dict :=
  (splitChar ',' ps).foldl
    (fun d param =>
      let p := strip param
      match splitOnce '=' p with
      | some (k, v) => dset d (strip k) (.pstr (strip v))
      | none => d)
    d

/-- The `while len(self.section_stack) > 2` close loop of the `## ` branch
(emits a close marker only for popped `subsection` entries). -/
def popAbove2 : List Str → List Str × List Str
  | [] => ([], [])
  | t :: rest =>
    if 2 < (t :: rest).length then
      let (es, st) := popAbove2 rest
      ((if t == str "subsection" then [str "    </subsection>"] else []) ++ es, st)
    else ([], t :: rest)

/-- The final `while len(self.section_stack) > 1` close loop of `convert`. -/
def popAbove1 : List Str → List Str × List Str
  | [] => ([], [])
  | t :: rest =>
    if 1 < (t :: rest).length then
      let (es, st) := popAbove1 rest
      ((if t == str "subsection" then [str "    </subsection>"]
        else if t == str "section" then [str "  </section>"] else []) ++ es, st)
    else ([], t :: rest)

/-- `^\s*[\*\-]\s+` as a line test. -/
def isUnordLine (line : Str) : Bool :=
  match line.dropWhile isSpace with
  | a :: b :: _ => (a == '*' || a == '-') && isSpace b
  | _ => false

/-- The matched prefix removed by `re.sub(r'^\s*[\*\-]\s+', '', line)`. -/
def unordContent (line : Str) : Str :=
  ((line.dropWhile isSpace).drop 1).dropWhile isSpace

/-- `^\s*\d+\.\s+` as a line test. -/
def isOrdLine (line : Str) : Bool :=
  let r := line.dropWhile isSpace
  let d := r.takeWhile Char.isDigit
  !d.isEmpty &&
    match r.drop d.length with
    | '.' :: b :: _ => isSpace b
    | _ => false

def ordContent (line : Str) : Str :=
  let r := line.dropWhile isSpace
  let d := r.takeWhile Char.isDigit
  ((r.drop d.length).drop 1).dropWhile isSpace

/-- `re.match(r'^[\*\-\d]', line)` as a test. -/
def startsListish (line : Str) : Bool :=
  match line with
  | c :: _ => c == '*' || c == '-' || c.isDigit
  | [] => false

def mdashify (t : Str) : Str := replaceAll (str " -- ") (str " <mdash/> ") t

/-- `RmdToPreTeXt.process_line`. -/
def processLine (s : St) (line : Str) : St :=
  if startsW (str "```\x7br") line then
    let s := flushList (flushBlockquote (flushParagraph s))
    let s := { s with in_code_block := true }
    match findRParams line with
    | some params => { s with code_block_params := parseParams params s.code_block_params }
    | none => s
  else if strip line == str "```" && !s.in_code_block then
    let s := flushList (flushBlockquote (flushParagraph s))
    { s with
      in_code_block := true,
      code_block_params := dset s.code_block_params (str "output") (.pbool true) }
  else if strip line == str "```" && s.in_code_block then
    flushCodeBlock s
  else if s.in_code_block then
    { s with code_block_lines := s.code_block_lines ++ [line] }
  else if startsW (str "> ") line then
    let s := flushList (flushParagraph s)
    let content := mdashify (strip (line.drop 2))
    { s with in_blockquote := true, blockquote_lines := s.blockquote_lines ++ [content] }
  else if s.in_blockquote && !(strip line).isEmpty then
    if startsW (str ">") line then
      let content := mdashify (strip (line.drop 1))
      { s with blockquote_lines := s.blockquote_lines ++ [content] }
    else
      { s with blockquote_lines := s.blockquote_lines ++ [strip line] }
  else if s.in_blockquote && (strip line).isEmpty then
    flushBlockquote s
  else if startsW (str "# ") line then
    let s := flushList (flushBlockquote (flushParagraph s))
    match parseChapter line with
    | some (title, xmlId) =>
      { s with
        output := s.output ++
          [str "<chapter xml:id=\"" ++ xmlId ++ str "\">",
           str "  <title>" ++ fmt true (strip title) ++ str "</title>", []],
        section_stack := [str "chapter"] }
    | none => s
  else if startsW (str "## ") line then
    let s := flushList (flushBlockquote (flushParagraph s))
    match parseSecTail (line.drop 2) with
    | some (title, xmlId) =>
      let t := fmt true (strip title)
      let (es, stk) := popAbove2 s.section_stack
      let (es, stk) :=
        match stk with
        | top :: rest =>
          if 1 < stk.length && top == str "section" then
            (es ++ [str "  </section>"], rest)
          else (es, stk)
        | [] => (es, stk)
      let openEl :=
        match xmlId with
        | some i => str "  <section xml:id=\"" ++ i ++ str "\">"
        | none => str "  <section>"
      { s with
        output := s.output ++ es ++ [openEl, str "    <title>" ++ t ++ str "</title>", []],
        section_stack := str "section" :: stk }
    | none => s
  else if startsW (str "### ") line then
    let s := flushList (flushBlockquote (flushParagraph s))
    match parseSecTail (line.drop 3) with
    | some (title, xmlId) =>
      let t := fmt true (strip title)
      let (es, stk) :=
        match s.section_stack with
        | top :: rest =>
          if 2 < s.section_stack.length && top == str "subsection" then
            ([str "    </subsection>"], rest)
          else ([], s.section_stack)
        | [] => ([], s.section_stack)
      let openEl :=
        match xmlId with
        | some i => str "    <subsection xml:id=\"" ++ i ++ str "\">"
        | none => str "    <subsection>"
      { s with
        output := s.output ++ es ++ [openEl, str "      <title>" ++ t ++ str "</title>", []],
        section_stack := str "subsection" :: stk }
    | none => s
  else if isUnordLine line then
    let s := flushBlockquote (flushParagraph s)
    let s := if !s.in_list then { s with in_list := true, list_type := some (str "unordered") }
      else s
    { s with list_lines := s.list_lines ++ [strip (unordContent line)] }
  else if isOrdLine line then
    let s := flushBlockquote (flushParagraph s)
    let s := if !s.in_list then { s with in_list := true, list_type := some (str "ordered") }
      else s
    { s with list_lines := s.list_lines ++ [strip (ordContent line)] }
  else if s.in_list && !(strip line).isEmpty && !startsW (str " ") line &&
      !startsListish line then
    { s with list_lines := modifyLast (fun x => x ++ str " " ++ strip line) s.list_lines }
  else if s.in_list && (strip line).isEmpty then
    flushList s
  else if (strip line).isEmpty then
    flushList (flushBlockquote (flushParagraph s))
  else
    let s := if !s.in_paragraph then { flushList s with in_paragraph := true } else s
    { s with paragraph_lines := s.paragraph_lines ++ [strip line] }

/-- `RmdToPreTeXt.convert`, minus file I/O: from the list of input lines
(trailing newlines already stripped) to the list of output elements. -/
def convert (lines : List Str) : List Str :=
  let s : St := { initSt with output := [str "<?xml version=\"1.0\" encoding=\"UTF-8\" ?>", []] }
  let s := lines.foldl processLine s
  let s := flushCodeBlock (flushList (flushBlockquote (flushParagraph s)))
  let (es, stk) := popAbove1 s.section_stack
  let closes :=
    match stk with
    | [x] => if x == str "chapter" then es ++ [str "</chapter>"] else es
    | _ => es
  s.output ++ closes

end Bayes

section BayesChecks

open PyStr Bayes

example : escapeXmlText (str "a<b") = str "a&lt;b" := by decide

example : fmt true (str "***bold italic***") = str "<em>bold italic</em>" := by decide

example : fmt true (str "a $x<y$ b") = str "a <m><![CDATA[x<y]]></m> b" := by decide

example : fmt true (str "`x<-1`") = str "<c>x<-1</c>" := by decide

example : fmt true (str "\\$5") = str "<em>_LITERAL_DOLLAR</em>_5" := by decide

example : convert [str "- a", str "1. b"] =
    [str "<?xml version=\"1.0\" encoding=\"UTF-8\" ?>", [],
     str "    <ul>",
     str "      <li><p>a</p></li>",
     str "      <li><p>b</p></li>",
     str "    </ul>"] := by decide

end BayesChecks

/-!
## `convert_ch4_statistical_theory.py` — the `RmdToPreTeXt` class

This variant parses any `#`–`####` heading with one regex and keeps a
stack of `(level, tag)` pairs closed by `close_sections`. -/

namespace Ch4

open PyStr Rx Py Heading

/-- `RmdToPreTeXt.escape_xml_text`. -/
def escapeXmlText (t : Str) : Str :=
  replaceAll (str ">") (str "&gt;")
    (replaceAll (str "<") (str "&lt;")
      (replaceAll (str "&") (str "&amp;") t))

def emWrap (c : Str) : Str := str "<em>" ++ c ++ str "</em>"

def codeTok (i : Nat) : Str := str "~~~CODE" ++ natStr i ++ str "~~~"
def dispTok (i : Nat) : Str := str "~~~DISPMATH" ++ natStr i ++ str "~~~"
def mathTok (i : Nat) : Str := str "~~~MATH" ++ natStr i ++ str "~~~"
def litDollar : Str := str "~~~LITERALDOLLAR~~~"

def dispStore (cnt : Str) : Str :=
  let c := strip cnt
  if hasChar '&' c || hasChar '<' c || hasChar '>' c || hasSub (str "\\begin") c then
    str "<me><![CDATA[" ++ c ++ str "]]></me>"
  else
    str "<me>" ++ c ++ str "</me>"

def mathStore (cnt : Str) : Str :=
  if hasChar '&' cnt || hasChar '<' cnt || hasChar '>' cnt then
    str "<m><![CDATA[" ++ cnt ++ str "]]></m>"
  else
    str "<m>" ++ cnt ++ str "</m>"

def xrefMk (c : Str) : Str := str "<xref ref=\"" ++ c ++ str "\"/>"

/-- One level of `convert_inline_formatting`; identical to the bayes
variant except for the literal-dollar placeholder (no underscores) and
the XML-escaping of restored inline-code content. -/
def convertInlineCore (fn : Str → Str) (useFn : Bool) (escape : Bool) (text : Str) : Str :=
  let text := replaceAll (str "\\$") litDollar text
  let (text, codeParts) := subSave (Pat.classy (str "`") (str "`") ['`']) id codeTok text
  let (text, dispParts) := subSave (Pat.plain (str "$$") (str "$$")) dispStore dispTok text
  let (text, mathParts) := subSave (Pat.classy (str "$") (str "$") ['$']) mathStore mathTok text
  let text := if escape then escapeXmlText text else text
  let text := subP (Pat.plain (str "***") (str "***")) emWrap text
  let text := subP (Pat.plain (str "**_") (str "_**")) emWrap text
  let text := subP (Pat.plain (str "_**") (str "**_")) emWrap text
  let text := subP (Pat.plain (str "**") (str "**")) emWrap text
  let text := subP (Pat.plain (str "__") (str "__")) emWrap text
  let text := subP (Pat.classy (str "*") (str "*") ['*']) emWrap text
  let text := subP underIt emWrap text
  let text := subP (Pat.classy (str "\\@ref(") (str ")") [')']) xrefMk text
  let text :=
    if useFn then
      subP (Pat.classy (str "^[") (str "]") [']'])
        (fun c => str "<fn>" ++ fn c ++ str "</fn>") text
    else text
  let text := restore dispTok id dispParts text
  let text := restore mathTok id mathParts text
  let text := restore codeTok (fun c => str "<c>" ++ escapeXmlText c ++ str "</c>") codeParts text
  replaceAll litDollar (str "$") text

def convertInline : Nat → Bool → Str → Str
  | 0, esc, t => convertInlineCore id false esc t
  | n + 1, esc, t => convertInlineCore (convertInline n false) true esc t

def fmt (esc : Bool) (t : Str) : Str := convertInline (t.length + 1) esc t

/-- The converter state; `section_stack` holds `(level, tag)` pairs with
the list head as the stack top. -/
structure St where
  output : List Str := []
  in_code_block : Bool := false
  code_block_lines : List Str := []
  code_block_params : Dict := []
  in_paragraph : Bool := false
  paragraph_lines : List Str := []
  in_list : Bool := false
  list_lines : List Str := []
  list_type : Option Str := none
  in_blockquote : Bool := false
  blockquote_lines : List Str := []
  section_stack : List (Nat × Str) := []
deriving Repr, DecidableEq

def initSt : St := {}

/-- `RmdToPreTeXt.flush_paragraph`. -/
def flushParagraph (s : St) : St :=
  if s.paragraph_lines.isEmpty then s
  else
    let content := strip (joinSpace s.paragraph_lines)
    { s with
      output := s.output ++
        (if content.isEmpty then []
         else [str "<p>" ++ fmt true content ++ str "</p>"]),
      paragraph_lines := [], in_paragraph := false }

/-- `RmdToPreTeXt.flush_list`. -/
def flushList (s : St) : St :=
  if s.list_lines.isEmpty then s
  else
    let tag := if s.list_type == some (str "ul") then str "ul" else str "ol"
    { s with
      output := s.output ++ [str "<" ++ tag ++ str ">"] ++
        s.list_lines.map (fun item => str "<li><p>" ++ fmt true item ++ str "</p></li>") ++
        [str "</" ++ tag ++ str ">"],
      list_lines := [], list_type := none, in_list := false }

/-- `RmdToPreTeXt.flush_blockquote`. -/
def flushBlockquote (s : St) : St :=
  if s.blockquote_lines.isEmpty then s
  else
    let content := fmt true (strip (joinSpace s.blockquote_lines))
    { s with
      output := s.output ++
        [str "<blockquote>", str "<p>" ++ content ++ str "</p>", str "</blockquote>"],
      blockquote_lines := [], in_blockquote := false }

/-- `RmdToPreTeXt.flush_code_block`. -/
def flushCodeBlock (s : St) : St :=
  if s.code_block_lines.isEmpty then s
  else
    let code := joinNL s.code_block_lines
    let consoleEs :=
      [str "<console>", str "<output><![CDATA[" ++ code ++ str "]]></output>", str "</console>"]
    let programEs :=
      [str "<program language=\"r\">", str "<input><![CDATA[" ++ code ++ str "]]></input>",
       str "</program>"]
    let es :=
      if dget s.code_block_params (str "lang") == some (.pstr (str "r")) then
        let echo := upper (match dget s.code_block_params (str "echo") with
          | some (.pstr v) => v
          | _ => str "TRUE")
        let evalP := upper (match dget s.code_block_params (str "eval") with
          | some (.pstr v) => v
          | _ => str "TRUE")
        if echo == str "FALSE" || evalP == str "FALSE" then consoleEs else programEs
      else consoleEs
    { s with
      output := s.output ++ es,
      code_block_lines := [], code_block_params := [], in_code_block := false }

/-- `RmdToPreTeXt.close_sections`: pop and close while the stack top's
level is ≥ the target. -/
def closeAux (lvl : Nat) : List (Nat × Str) → List Str → List Str × List (Nat × Str)
  | [], out => (out, [])
  | (l, t) :: rest, out =>
    if lvl ≤ l then closeAux lvl rest (out ++ [str "</" ++ t ++ str ">"])
    else (out, (l, t) :: rest)

def closeSections (lvl : Nat) (s : St) : St :=
  let r := closeAux lvl s.section_stack s.output
  { s with output := r.1, section_stack := r.2 }

/-- `re.match(r'^(\s*)([-*+]|\d+\.)\s+(.+)$', line)`: marker kind
(`true` = ordered) and content group. -/
def listMatch (line : Str) : Option (Bool × Str) :=
  let r := line.dropWhile isSpace
  let after : Option (Bool × Str) :=
    match r with
    | c :: rest =>
      if c == '-' || c == '*' || c == '+' then some (false, rest)
      else
        let d := r.takeWhile Char.isDigit
        if !d.isEmpty then
          match r.drop d.length with
          | '.' :: rest' => some (true, rest')
          | _ => none
        else none
    | [] => none
  match after with
  | none => none
  | some (ord, rest) =>
    let w := rest.takeWhile isSpace
    if w.isEmpty then none
    else
      let cnt := rest.drop w.length
      if cnt.isEmpty then
        if 2 ≤ rest.length then some (ord, [rest.getLastD ' ']) else none
      else some (ord, cnt)

/-- The ```` ``` ```` fence-open parameter parsing of `process_line`. -/
def parseFenceParams (line : Str) (d : Dict) : Dict :=
  let paramsStr := strip (line.drop 3)
  if startsW (str "\x7b") paramsStr then
    let inner :=
      if paramsStr.getLast? == some '}' then (paramsStr.drop 1).dropLast
      else paramsStr.drop 1
    let parts := splitChar ',' inner
    let d := dset d (str "lang") (.pstr (str "r"))
    parts.tail.foldl
      (fun d part =>
        let p := strip part
        match splitOnce '=' p with
        | some (k, v) => dset d (strip k) (.pstr (strip v))
        | none => d)
      d
  else if !paramsStr.isEmpty then
    dset d (str "lang") (.pstr paramsStr)
  else d

/-- `RmdToPreTeXt.process_line`. -/
def processLine (s : St) (line : Str) : St :=
  if startsW (str "```") line then
    if s.in_code_block then flushCodeBlock s
    else
      let s := flushBlockquote (flushList (flushParagraph s))
      { s with
        in_code_block := true,
        code_block_params := parseFenceParams line s.code_block_params }
  else if s.in_code_block then
    { s with code_block_lines := s.code_block_lines ++ [line] }
  else
    match parseHeading line with
    | some (level, rawTitle, xmlId) =>
      let s := flushBlockquote (flushList (flushParagraph s))
      let title := fmt true (strip rawTitle)
      let s := closeSections level s
      let tag :=
        if level == 1 then str "chapter"
        else if level == 2 then str "section"
        else if level == 3 then str "subsection"
        else str "subsubsection"
      let openEl :=
        match xmlId with
        | some i => str "<" ++ tag ++ str " xml:id=\"" ++ i ++ str "\">"
        | none => str "<" ++ tag ++ str ">"
      { s with
        output := s.output ++ [openEl, str "<title>" ++ title ++ str "</title>"],
        section_stack := (level, tag) :: s.section_stack }
    | none =>
      if startsW (str ">") line then
        let s := flushList (flushParagraph s)
        let content := strip (line.drop 1)
        { s with
          blockquote_lines := s.blockquote_lines ++ (if content.isEmpty then [] else [content]),
          in_blockquote := true }
      else if s.in_blockquote && !(strip line).isEmpty then
        { s with blockquote_lines := s.blockquote_lines ++ [strip line] }
      else if s.in_blockquote && (strip line).isEmpty then
        flushBlockquote s
      else
        match listMatch line with
        | some (ord, content) =>
          let s := flushParagraph s
          let newType := if ord then str "ol" else str "ul"
          let s :=
            if s.in_list && !(s.list_type == some newType) then flushList s else s
          { s with
            list_type := some newType,
            list_lines := s.list_lines ++ [content],
            in_list := true }
        | none =>
          if (strip line).isEmpty then
            flushBlockquote (flushList (flushParagraph s))
          else
            let s := flushBlockquote (flushList s)
            { s with
              paragraph_lines := s.paragraph_lines ++ [strip line],
              in_paragraph := true }

/-- The state at end of input, before the final flushes. -/
def foldState (lines : List Str) : St :=
  lines.foldl processLine
    { initSt with output := [str "<?xml version=\"1.0\" encoding=\"UTF-8\"?>", []] }

/-- The state after the final flushes, before `close_sections(0)`. -/
def finalState (lines : List Str) : St :=
  flushCodeBlock (flushBlockquote (flushList (flushParagraph (foldState lines))))

/-- `RmdToPreTeXt.convert`, minus file I/O. -/
def convert (lines : List Str) : List Str :=
  (closeSections 0 (finalState lines)).output

end Ch4

section Ch4Checks

open PyStr Ch4

example : convert [str "## A", str "### B", str "## C"] =
    [str "<?xml version=\"1.0\" encoding=\"UTF-8\"?>", [],
     str "<section>", str "<title>A</title>",
     str "<subsection>", str "<title>B</title>",
     str "</subsection>", str "</section>",
     str "<section>", str "<title>C</title>",
     str "</section>"] := by decide

example : convert [str "- a", str "1. b"] =
    [str "<?xml version=\"1.0\" encoding=\"UTF-8\"?>", [],
     str "<ul>", str "<li><p>a</p></li>", str "</ul>",
     str "<ol>", str "<li><p>b</p></li>", str "</ol>"] := by decide

example : convert [str "# T {#t}", str "x", [], str "```{r}", str "1+1", str "```"] =
    [str "<?xml version=\"1.0\" encoding=\"UTF-8\"?>", [],
     str "<chapter xml:id=\"t\">", str "<title>T</title>",
     str "<p>x</p>",
     str "<program language=\"r\">", str "<input><![CDATA[1+1]]></input>", str "</program>",
     str "</chapter>"] := by decide

end Ch4Checks

/-!
## `convert_anova_complete.py` — module-level functions and `convert_file`

This variant reads the raw `readlines()` output, so its input lines carry
their trailing newlines and its output elements carry explicit `\n`
(written back with `writelines`). -/

namespace Anova

open PyStr Rx Py Heading

/-- `escape_xml`: escape, then undo the double-escaping of `&lt;`/`&gt;`. -/
def escapeXml (t : Str) : Str :=
  replaceAll (str "&amp;gt;") (str "&gt;")
    (replaceAll (str "&amp;lt;") (str "&lt;")
      (replaceAll (str ">") (str "&gt;")
        (replaceAll (str "<") (str "&lt;")
          (replaceAll (str "&") (str "&amp;") t))))

def emWrap (c : Str) : Str := str "<em>" ++ c ++ str "</em>"

/-- `(?<![*_])\*([^*\n]+)\*(?![*_])`. -/
def italStar : Pat :=
  ⟨str "*", str "*", fun c => c == '*' || c == '\n', 1,
    fun p => match p with
      | none => true
      | some c => !(c == '*' || c == '_'),
    fun p => match p with
      | none => true
      | some c => !(c == '*' || c == '_')⟩

/-- The matcher of `(?<![*_])_([^_\s][^_\n]*[^_\s])_(?![*_])`: content of
at least two non-underscore characters, first and last not whitespace, no
newline in between. -/
def italUnderM (prev : Option Char) (s : Str) : Option (Str × Str × Option Char) :=
  let lbOK := match prev with
    | none => true
    | some c => !(c == '*' || c == '_')
  match s with
  | '_' :: rest =>
    let cnt := rest.takeWhile (fun c => !(c == '_'))
    (match rest.drop cnt.length with
     | '_' :: after =>
       let laOK := match after.head? with
         | none => true
         | some c => !(c == '*' || c == '_')
       if lbOK && laOK && 2 ≤ cnt.length &&
           !(isSpace (cnt.headD ' ')) && !(isSpace (cnt.getLastD ' ')) &&
           !((cnt.drop 1).dropLast.contains '\n') then
         some (emWrap cnt, after, some '_')
       else none
     | _ => none)
  | _ => none

/-- One level of `process_inline_formatting` (footnotes recurse through
`fn` when `useFn`). -/
def processInlineFormattingCore (fn : Str → Str) (useFn : Bool) (text : Str) : Str :=
  let text := subP (Pat.classy (str "`") (str "`") ['`'])
    (fun c => str "<c>" ++ c ++ str "</c>") text
  let text := subP (Pat.classy (str "\\@ref(") (str ")") [')'])
    (fun c => str "<xref ref=\"" ++ c ++ str "\"/>") text
  let text :=
    if useFn then
      subP (Pat.classy (str "^[") (str "]") [']'])
        (fun c => str "<fn>" ++ fn c ++ str "</fn>") text
    else text
  let text := subP (Pat.classy (str "***") (str "***") ['*']) emWrap text
  let text := subP (Pat.classy (str "___") (str "___") ['_']) emWrap text
  let text := subP (Pat.classy (str "**") (str "**") ['*']) emWrap text
  let text := subP (Pat.classy (str "__") (str "__") ['_']) emWrap text
  let text := subP italStar emWrap text
  subM italUnderM text

def processInlineFormatting : Nat → Str → Str
  | 0, t => processInlineFormattingCore id false t
  | n + 1, t => processInlineFormattingCore (processInlineFormatting n) true t

def fmtI (t : Str) : Str := processInlineFormatting (t.length + 1) t

/-- `process_inline_math`: `(?<!\$)\$(?!\$)([^\$]+?)\$(?!\$)`. -/
def processInlineMath (t : Str) : Str :=
  subP ⟨str "$", str "$", fun c => c == '$', 1,
        fun p => !(p == some '$'), fun p => !(p == some '$')⟩
    (fun c => str "<m><![CDATA[" ++ c ++ str "]]></m>") t

def convertDisplayMath (t : Str) : Str := str "<me><![CDATA[" ++ t ++ str "]]></me>"

def convertCodeBlock (code : Str) : Str :=
  str "<program language=\"r\">\n  <input><![CDATA[\n" ++ code ++ str "]]></input>\n</program>"

/-- `process_paragraph`. -/
def processParagraph (t : Str) : Str :=
  let t := strip t
  if t.isEmpty then []
  else str "<p>" ++ fmtI (processInlineMath t) ++ str "</p>"

/-- `re.match(r'# ([^{]+)\{#([^}]+)\}', line)`. -/
def parseChap (line : Str) : Option (Str × Str) :=
  match line with
  | '#' :: ' ' :: rest =>
    let t := rest.takeWhile (fun c => !(c == '{'))
    if t.isEmpty then none
    else
      let r2 := rest.drop t.length
      if startsW (str "\x7b#") r2 then
        let i := (r2.drop 2).takeWhile (fun c => !(c == '}'))
        if !i.isEmpty && ((r2.drop 2).drop i.length).head? == some '}' then
          some (t, i)
        else none
      else none
  | _ => none

/-- `re.match(r'^(#{2,})\s+(.+?)(?:\{#([^}]+)\})?\s*$', line)`. -/
def parseSecHeading (line : Str) : Option (Nat × Str × Option Str) :=
  let hs := line.takeWhile (fun c => c == '#')
  if 2 ≤ hs.length then
    match parseHeadingTail (line.drop hs.length) with
    | some (t, i) => some (hs.length, t, i)
    | none => none
  else none

/-- `^\d+\.\s+` / `^[\*\-]\s+` tests and the prefix-stripped content. -/
def isOrd (line : Str) : Bool :=
  let d := line.takeWhile Char.isDigit
  !d.isEmpty &&
    match line.drop d.length with
    | '.' :: b :: _ => isSpace b
    | _ => false

def ordRest (line : Str) : Str :=
  let d := line.takeWhile Char.isDigit
  ((line.drop d.length).drop 1).dropWhile isSpace

def isUnord (line : Str) : Bool :=
  match line with
  | a :: b :: _ => (a == '*' || a == '-') && isSpace b
  | _ => false

def unordRest (line : Str) : Str := (line.drop 1).dropWhile isSpace

/-- The loop state of `convert_file`. -/
structure St where
  output : List Str := []
  in_code_block : Bool := false
  code_block : List Str := []
  in_display_math : Bool := false
  display_math : List Str := []
  in_list : Bool := false
  list_type : Option Str := none
  list_items : List Str := []
  in_blockquote : Bool := false
  blockquote_lines : List Str := []
  paragraph_lines : List Str := []
deriving Repr, DecidableEq

def flushParagraph (s : St) : St :=
  if s.paragraph_lines.isEmpty then s
  else
    let paraText := strip (joinSpace s.paragraph_lines)
    { s with
      output := s.output ++
        (if paraText.isEmpty then []
         else [str "    " ++ processParagraph paraText ++ str "\n"]),
      paragraph_lines := [] }

def flushList (s : St) : St :=
  if s.in_list && !s.list_items.isEmpty then
    let tag := if s.list_type == some (str "ordered") then str "ol" else str "ul"
    { s with
      output := s.output ++ [str "    <" ++ tag ++ str ">\n"] ++
        s.list_items.map (fun item =>
          str "      <li><p>" ++ fmtI (processInlineMath item) ++ str "</p></li>\n") ++
        [str "    </" ++ tag ++ str ">\n"],
      in_list := false, list_items := [] }
  else s

def flushBlockquote (s : St) : St :=
  if s.in_blockquote && !s.blockquote_lines.isEmpty then
    let bq := fmtI (processInlineMath (strip (joinSpace s.blockquote_lines)))
    { s with
      output := s.output ++
        [str "    <blockquote>\n", str "      <p>" ++ bq ++ str "</p>\n",
         str "    </blockquote>\n"],
      in_blockquote := false, blockquote_lines := [] }
  else s

/-- The body of the `while i < len(lines)` loop for one line (every branch
advances `i` by exactly one); `line` carries its trailing newline as read
by `readlines()`. -/
def processLine (s : St) (line : Str) : St :=
  if startsW (str "```") line then
    if !s.in_code_block then
      let s := flushBlockquote (flushList (flushParagraph s))
      { s with in_code_block := true, code_block := [] }
    else
      let codeText := rstrip (joinSep [] s.code_block)
      { s with
        in_code_block := false,
        output := s.output ++ [str "    " ++ convertCodeBlock codeText ++ str "\n"],
        code_block := [] }
  else if s.in_code_block then
    { s with code_block := s.code_block ++ [line] }
  else if startsW (str "$$") (strip line) then
    if !s.in_display_math then
      let s := flushBlockquote (flushList (flushParagraph s))
      { s with in_display_math := true, display_math := [] }
    else
      let mathText := strip (joinSep [] s.display_math)
      { s with
        in_display_math := false,
        output := s.output ++ [str "    " ++ convertDisplayMath mathText ++ str "\n"],
        display_math := [] }
  else if s.in_display_math then
    { s with display_math := s.display_math ++ [line] }
  else
    match parseSecHeading line with
    | some (level, rawTitle, secId) =>
      let s := flushBlockquote (flushList (flushParagraph s))
      let title := fmtI (processInlineMath (strip rawTitle))
      let tag :=
        if level == 2 then str "section"
        else if level == 3 then str "subsection"
        else str "subsubsection"
      let openEl :=
        match secId with
        | some i => str "  <" ++ tag ++ str " xml:id=\"" ++ i ++ str "\">\n"
        | none => str "  <" ++ tag ++ str ">\n"
      { s with output := s.output ++ [openEl, str "    <title>" ++ title ++ str "</title>\n\n"] }
    | none =>
      if startsW (str "> ") line then
        let s := flushList (flushParagraph s)
        let s := if !s.in_blockquote then { s with in_blockquote := true, blockquote_lines := [] }
          else s
        { s with blockquote_lines := s.blockquote_lines ++ [strip (line.drop 2)] }
      else if s.in_blockquote && (strip line).isEmpty then
        flushBlockquote s
      else if isOrd line then
        let s := flushBlockquote (flushParagraph s)
        let s :=
          if !s.in_list || !(s.list_type == some (str "ordered")) then
            let s := flushList s
            { s with in_list := true, list_type := some (str "ordered"), list_items := [] }
          else s
        { s with list_items := s.list_items ++ [strip (ordRest line)] }
      else if isUnord line then
        let s := flushBlockquote (flushParagraph s)
        let s :=
          if !s.in_list || !(s.list_type == some (str "unordered")) then
            let s := flushList s
            { s with in_list := true, list_type := some (str "unordered"), list_items := [] }
          else s
        { s with list_items := s.list_items ++ [strip (unordRest line)] }
      else if (strip line).isEmpty then
        flushBlockquote (flushList (flushParagraph s))
      else
        let s := flushBlockquote (flushList s)
        { s with paragraph_lines := s.paragraph_lines ++ [strip line] }

/-- `convert_file`, minus file I/O: from the `readlines()` line list to
the output element list.  The first line is checked for the chapter
heading; all other processing is the per-line loop body. -/
def convertFile (lines : List Str) : List Str :=
  let s : St := { output := [str "<?xml version=\"1.0\" encoding=\"UTF-8\" ?>\n", str "\n"] }
  let s :=
    match lines with
    | [] => s
    | l0 :: rest =>
      let s :=
        if startsW (str "# ") l0 then
          match parseChap l0 with
          | some (title, xmlId) =>
            { s with
              output := s.output ++
                [str "<chapter xml:id=\"" ++ xmlId ++ str "\">\n",
                 str "  <title>" ++ strip title ++ str "</title>\n\n"] }
          | none => s
        else processLine s l0
      rest.foldl processLine s
  let s := flushBlockquote (flushList (flushParagraph s))
  s.output ++ [str "  </section>\n", str "</chapter>\n"]

end Anova

section AnovaChecks

open PyStr Anova

example : escapeXml (str "&") = str "&amp;" := by decide
example : escapeXml (str "&amp;") = str "&amp;amp;" := by decide
example : escapeXml (str "<") = str "&lt;" := by decide
example : escapeXml (str "&lt;") = str "&lt;" := by decide

example : convertFile [] =
    [str "<?xml version=\"1.0\" encoding=\"UTF-8\" ?>\n", str "\n",
     str "  </section>\n", str "</chapter>\n"] := by decide

example : convertFile [str "```\n", str "hello\n"] =
    [str "<?xml version=\"1.0\" encoding=\"UTF-8\" ?>\n", str "\n",
     str "  </section>\n", str "</chapter>\n"] := by decide

example : convertFile [str "- a\n", str "1. b\n"] =
    [str "<?xml version=\"1.0\" encoding=\"UTF-8\" ?>\n", str "\n",
     str "    <ul>\n", str "      <li><p>a</p></li>\n", str "    </ul>\n",
     str "    <ol>\n", str "      <li><p>b</p></li>\n", str "    </ol>\n",
     str "  </section>\n", str "</chapter>\n"] := by decide

end AnovaChecks

/-!
## `convert_ch_regression.py` — state, flushes and `finalize`

The inline formatter differs from the bayes variant only in the display
math CDATA condition (an extra `'\\array'` test) and in the XML escaping
of restored inline-code content; `finalize` flushes every buffer and then
closes every still-open section. -/

namespace Reg

open PyStr Rx Py Heading

def escapeXmlText (t : Str) : Str :=
  replaceAll (str ">") (str "&gt;")
    (replaceAll (str "<") (str "&lt;")
      (replaceAll (str "&") (str "&amp;") t))

def emWrap (c : Str) : Str := str "<em>" ++ c ++ str "</em>"

def codeTok (i : Nat) : Str := str "~~~CODE" ++ natStr i ++ str "~~~"
def dispTok (i : Nat) : Str := str "~~~DISPMATH" ++ natStr i ++ str "~~~"
def mathTok (i : Nat) : Str := str "~~~MATH" ++ natStr i ++ str "~~~"
def litDollar : Str := str "___LITERAL_DOLLAR___"

def dispStore (cnt : Str) : Str :=
  let c := strip cnt
  if hasChar '&' c || hasChar '<' c || hasChar '>' c || hasSub (str "\\begin") c ||
      hasSub (str "\\array") c then
    str "<me><![CDATA[" ++ c ++ str "]]></me>"
  else
    str "<me>" ++ c ++ str "</me>"

def mathStore (cnt : Str) : Str :=
  if hasChar '&' cnt || hasChar '<' cnt || hasChar '>' cnt then
    str "<m><![CDATA[" ++ cnt ++ str "]]></m>"
  else
    str "<m>" ++ cnt ++ str "</m>"

def convertInlineCore (fn : Str → Str) (useFn : Bool) (escape : Bool) (text : Str) : Str :=
  let text := replaceAll (str "\\$") litDollar text
  let (text, codeParts) := subSave (Pat.classy (str "`") (str "`") ['`']) id codeTok text
  let (text, dispParts) := subSave (Pat.plain (str "$$") (str "$$")) dispStore dispTok text
  let (text, mathParts) := subSave (Pat.classy (str "$") (str "$") ['$']) mathStore mathTok text
  let text := if escape then escapeXmlText text else text
  let text := subP (Pat.plain (str "***") (str "***")) emWrap text
  let text := subP (Pat.plain (str "**_") (str "_**")) emWrap text
  let text := subP (Pat.plain (str "_**") (str "**_")) emWrap text
  let text := subP (Pat.plain (str "**") (str "**")) emWrap text
  let text := subP (Pat.plain (str "__") (str "__")) emWrap text
  let text := subP (Pat.classy (str "*") (str "*") ['*']) emWrap text
  let text := subP underIt emWrap text
  let text := subP (Pat.classy (str "\\@ref(") (str ")") [')'])
    (fun c => str "<xref ref=\"" ++ c ++ str "\"/>") text
  let text :=
    if useFn then
      subP (Pat.classy (str "^[") (str "]") [']'])
        (fun c => str "<fn>" ++ fn c ++ str "</fn>") text
    else text
  let text := restore dispTok id dispParts text
  let text := restore mathTok id mathParts text
  let text := restore codeTok
    (fun c => str "<c>" ++ escapeXmlText c ++ str "</c>") codeParts text
  replaceAll litDollar (str "$") text

def convertInline : Nat → Bool → Str → Str
  | 0, esc, t => convertInlineCore id false esc t
  | n + 1, esc, t => convertInlineCore (convertInline n false) true esc t

def fmt (esc : Bool) (t : Str) : Str := convertInline (t.length + 1) esc t

structure St where
  output : List Str := []
  in_code_block : Bool := false
  code_block_lines : List Str := []
  code_block_params : Dict := []
  in_paragraph : Bool := false
  paragraph_lines : List Str := []
  in_list : Bool := false
  list_lines : List Str := []
  list_type : Option Str := none
  in_blockquote : Bool := false
  blockquote_lines : List Str := []
  section_stack : List Str := []
deriving Repr, DecidableEq

def initSt : St := {}

def flushParagraph (s : St) : St :=
  if s.paragraph_lines.isEmpty then s
  else
    { s with
      output := s.output ++
        [str "    <p>" ++ fmt true (joinSpace s.paragraph_lines) ++ str "</p>"],
      paragraph_lines := [], in_paragraph := false }

def flushBlockquote (s : St) : St :=
  if s.blockquote_lines.isEmpty then s
  else
    let content := fmt true (joinSpace s.blockquote_lines)
    let es :=
      if hasSub (str " -- ") content || hasSub (str " <mdash/> ") content then
        let parts :=
          if hasSub (str " -- ") content then splitSub (str " -- ") content
          else splitSub (str " <mdash/> ") content
        match parts with
        | [a, _b] =>
          [str "    <blockquote>", str "      <p>" ++ strip a ++ str "</p>",
           str "    </blockquote>"]
        | _ =>
          [str "    <blockquote>", str "      <p>" ++ content ++ str "</p>",
           str "    </blockquote>"]
      else
        [str "    <blockquote>", str "      <p>" ++ content ++ str "</p>",
         str "    </blockquote>"]
    { s with output := s.output ++ es, blockquote_lines := [], in_blockquote := false }

def flushList (s : St) : St :=
  if s.list_lines.isEmpty then s
  else
    let tag := if s.list_type == some (str "unordered") then str "ul" else str "ol"
    { s with
      output := s.output ++ [str "    <" ++ tag ++ str ">"] ++
        s.list_lines.map
          (fun item => str "      <li><p>" ++ fmt true item ++ str "</p></li>") ++
        [str "    </" ++ tag ++ str ">"],
      list_lines := [], in_list := false, list_type := none }

/-- `RmdToPreTeXt.flush_code_block` (lines 169–194): unclosed or closed,
a nonempty buffer is emitted either as a CDATA `pre` block (output
blocks) or as a `program` block. -/
def flushCodeBlock (s : St) : St :=
  if s.code_block_lines.isEmpty then s
  else
    let isOutput := dtruthy s.code_block_params (str "output")
    let code := joinNL s.code_block_lines
    let es :=
      if isOutput then
        [str "    <pre><![CDATA[", code, str "]]></pre>"]
      else
        [str "    <program language=\"r\">", str "      <input><![CDATA[", code,
         str "]]></input>", str "    </program>"]
    { s with
      output := s.output ++ es,
      code_block_lines := [], in_code_block := false, code_block_params := [] }

/-- The final `while len(self.section_stack) > 0` close loop. -/
def popAll : List Str → List Str
  | [] => []
  | t :: rest =>
    (if t == str "subsection" then [str "    </subsection>"]
     else if t == str "section" then [str "  </section>"]
     else if t == str "chapter" then [str "</chapter>"]
     else []) ++ popAll rest

/-- `RmdToPreTeXt.finalize` (lines 362–377). -/
def finalize (s : St) : St :=
  let s := flushCodeBlock (flushList (flushBlockquote (flushParagraph s)))
  { s with output := s.output ++ popAll s.section_stack, section_stack := [] }

end Reg

section RegChecks

open PyStr Reg

example : (finalize { initSt with
    in_code_block := true,
    code_block_lines := [str "x <- 1", str "x"] }).output =
    [str "    <program language=\"r\">", str "      <input><![CDATA[",
     str "x <- 1\nx", str "]]></input>", str "    </program>"] := by decide

end RegChecks

/-!
## `convert_ch3_intro_r.py` — `convert_inline_formatting` and
`convert_cross_refs`

The inline formatter of this variant has no footnote recursion (footnotes
are protected separately in `process_text_line`); display and inline math
share one placeholder table, and the placeholders are restored in the
order code → literal dollar → math. -/

namespace Ch3

open PyStr Rx Py Heading

def escapeXmlText (t : Str) : Str :=
  replaceAll (str ">") (str "&gt;")
    (replaceAll (str "<") (str "&lt;")
      (replaceAll (str "&") (str "&amp;") t))

def codeTok (i : Nat) : Str := str "__CODE_" ++ natStr i ++ str "__"
def mathTok (i : Nat) : Str := str "__MATH_" ++ natStr i ++ str "__"
def litDollar : Str := str "___LITERAL_DOLLAR___"

/-- After the opening boundary `b1` (`^` as `[]`, or one consumed
whitespace character), match `\*([^*]+)\*($|\s)` on `r`; the closing
boundary (`$` preferred, else one whitespace character) is consumed and
re-emitted, as the regex groups are. -/
def emStarCore (b1 : Str) (r : Str) : Option (Str × Str × Option Char) :=
  match r with
  | '*' :: rest =>
    let cnt := rest.takeWhile (fun c => !(c == '*'))
    (match rest.drop cnt.length with
     | '*' :: after =>
       if cnt.isEmpty then none
       else if after.isEmpty || after == ['\n'] then
         some (b1 ++ str "<em>" ++ cnt ++ str "</em>", after, some '*')
       else
         match after with
         | b3 :: rest' =>
           if isSpace b3 then
             some (b1 ++ str "<em>" ++ cnt ++ str "</em>" ++ [b3], rest', some b3)
           else none
         | [] => none
     | _ => none)
  | _ => none

/-- The matcher of `(^|\s)\*([^*]+)\*($|\s)`: both boundary groups are
consumed by the match and re-emitted around the `<em>` element.  The `^`
alternative applies only at the start of the string (where `prev` is
`none`); otherwise the opening boundary must be a whitespace character at
the current position. -/
def emStarM (prev : Option Char) (s : Str) : Option (Str × Str × Option Char) :=
  let viaSpace : Option (Str × Str × Option Char) :=
    match s with
    | b1 :: rest => if isSpace b1 then emStarCore [b1] rest else none
    | [] => none
  match prev with
  | none =>
    match emStarCore [] s with
    | some r => some r
    | none => viaSpace
  | some _ => viaSpace

/-- `RmdToPreTeXt.convert_inline_formatting` (lines 32–90).  Not
recursive: no footnote pass. -/
def convertInlineFormatting (escape : Bool) (text : Str) : Str :=
  let text := replaceAll (str "\\$") litDollar text
  let (text, codeParts) := subSave (Pat.classy (str "`") (str "`") ['`']) id codeTok text
  let (text, mathParts) := subSave (Pat.plain (str "$$") (str "$$") 0)
    (fun c => str "<me>" ++ c ++ str "</me>") mathTok text
  let (text, mathParts) := subSaveFrom (Pat.classy (str "$") (str "$") ['$'])
    (fun c => str "<m>" ++ c ++ str "</m>") mathTok text mathParts
  let text := if escape then escapeXmlText text else text
  let text := subP (Pat.classy (str "***") (str "***") ['*'])
    (fun c => str "<term>" ++ c ++ str "</term>") text
  let text := subP (Pat.classy (str "**_") (str "_**") ['_'])
    (fun c => str "<term>" ++ c ++ str "</term>") text
  let text := subP (Pat.classy (str "**") (str "**") ['*'])
    (fun c => str "<em>" ++ c ++ str "</em>") text
  let text := subM emStarM text
  let text := replaceAll (str " -- ") (str " <mdash /> ") text
  let text := restore codeTok (fun c => str "<c>" ++ c ++ str "</c>") codeParts text
  let text := replaceAll litDollar (str "$") text
  restore mathTok id mathParts text

def hyph (s : Str) : Str := replaceAll (str "_") (str "-") s

def xrefPlain (c : Str) : Str := str "<xref ref=\"" ++ hyph c ++ str "\" />"
def xrefFig (c : Str) : Str := str "<xref ref=\"fig-" ++ hyph c ++ str "\" />"
def xrefTab (c : Str) : Str := str "<xref ref=\"table-" ++ hyph c ++ str "\" />"

/-- `RmdToPreTeXt.convert_cross_refs` (lines 98–118). -/
def convertCrossRefs (text : Str) : Str :=
  let text := subP (Pat.classy (str "Chapter \\@ref(") (str ")") [')']) xrefPlain text
  let text := subP (Pat.classy (str "Section \\@ref(") (str ")") [')']) xrefPlain text
  let text := subP (Pat.classy (str "Figure \\@ref(fig:") (str ")") [')']) xrefFig text
  let text := subP (Pat.classy (str "\\@ref(fig:") (str ")") [')']) xrefFig text
  let text := subP (Pat.classy (str "Table \\@ref(tab:") (str ")") [')']) xrefTab text
  let text := subP (Pat.classy (str "\\@ref(tab:") (str ")") [')']) xrefTab text
  subP (Pat.classy (str "\\@ref(") (str ")") [')']) xrefPlain text

end Ch3

section Ch3Checks

open PyStr Ch3

example : convertInlineFormatting true (str "***strong-term***") =
    str "<term>strong-term</term>" := by decide

example : convertInlineFormatting true (str "$`a`$") = str "<m>__CODE_0__</m>" := by decide

example : convertInlineFormatting true (str " *a* *b* ") =
    str " <em>a</em> *b* " := by decide

example : convertCrossRefs (str "\\@ref(fig:my_plot)") =
    str "<xref ref=\"fig-my-plot\" />" := by decide

example : convertCrossRefs (str "\\@ref(tab:x_y)") =
    str "<xref ref=\"table-x-y\" />" := by decide

example : convertCrossRefs (str "see \\@ref(other_sec) here") =
    str "see <xref ref=\"other-sec\" /> here" := by decide

example : convertCrossRefs (str "Chapter \\@ref(ch_one)") =
    str "<xref ref=\"ch-one\" />" := by decide

end Ch3Checks

/-!
## Structural marker counting for the balance claims

Output elements are classified at the element level: an element is a
structural *open* marker iff it starts with `<chapter`, `<section`,
`<subsection` or `<subsubsection` (exactly the heading-opening appends of
`convert_ch4_statistical_theory.py`), and a *close* marker iff it is
exactly `</tag>` for one of the four tags.  Every other element the
converter appends (`<p>…`, `<title>…`, `<ul>`, CDATA blocks, …) matches
neither. -/

namespace Balance

open PyStr Py Ch4

def tags4 : List Str := [str "chapter", str "section", str "subsection", str "subsubsection"]

def mkClose (t : Str) : Str := str "</" ++ t ++ str ">"

def isOpenOf (t : Str) (e : Str) : Bool := startsW (str "<" ++ t) e

def isOpenAny (e : Str) : Bool :=
  isOpenOf (str "chapter") e || isOpenOf (str "section") e ||
  isOpenOf (str "subsection") e || isOpenOf (str "subsubsection") e

def isCloseAny (e : Str) : Bool :=
  e == mkClose (str "chapter") || e == mkClose (str "section") ||
  e == mkClose (str "subsection") || e == mkClose (str "subsubsection")

def openCount (t : Str) (o : List Str) : Nat := o.countP (isOpenOf t)

def closeCount (t : Str) (o : List Str) : Nat := o.countP (fun e => e == mkClose t)

def opensAll (o : List Str) : Nat := o.countP isOpenAny

def closesAll (o : List Str) : Nat := o.countP isCloseAny

/-- Elements that are neither structural opens nor closes. -/
def Neutral (es : List Str) : Prop := ∀ e ∈ es, isOpenAny e = false ∧ isCloseAny e = false

/-- The balance invariant on an (output, section-stack) pair:
per-tag opens = closes + still-open entries of that tag, the total
deficit equals the stack height, every output prefix has at least as many
opens as closes, the stack levels strictly decrease from top (head) to
bottom, and every stack tag is one of the four structural tags. -/
def InvP (o : List Str) (stk : List (Nat × Str)) : Prop :=
  (∀ t ∈ tags4, openCount t o = closeCount t o + (stk.map Prod.snd).count t) ∧
  opensAll o = closesAll o + stk.length ∧
  (∀ n, closesAll (o.take n) ≤ opensAll (o.take n)) ∧
  List.Chain' (fun a b : Nat × Str => b.1 < a.1) stk ∧
  (∀ e ∈ stk, e.2 ∈ tags4)

def Inv (s : St) : Prop := InvP s.output s.section_stack

lemma mkClose_inj {a b : Str} (h : mkClose a = mkClose b) : a = b := by
  unfold mkClose at h
  have h2 := List.append_cancel_right h
  exact List.append_cancel_left h2

lemma neutral_nil : Neutral [] := by intro e he; cases he

lemma neutral_append {es fs : List Str} (h1 : Neutral es) (h2 : Neutral fs) :
    Neutral (es ++ fs) := by
  intro e he
  rcases List.mem_append.mp he with h | h
  · exact h1 e h
  · exact h2 e h

lemma neutral_cons {e : Str} {es : List Str}
    (h1 : isOpenAny e = false) (h2 : isCloseAny e = false) (h : Neutral es) :
    Neutral (e :: es) := by
  intro x hx
  rcases List.mem_cons.mp hx with h' | h'
  · exact h' ▸ ⟨h1, h2⟩
  · exact h x h'

lemma countP_neutral_opens {es : List Str} (h : Neutral es) {p : Str → Bool}
    (hp : ∀ e, p e = true → isOpenAny e = true) : es.countP p = 0 := by
  rw [List.countP_eq_zero]
  intro e he hpe
  have := (h e he).1
  rw [hp e hpe] at this
  cases this

lemma countP_neutral_closes {es : List Str} (h : Neutral es) {p : Str → Bool}
    (hp : ∀ e, p e = true → isCloseAny e = true) : es.countP p = 0 := by
  rw [List.countP_eq_zero]
  intro e he hpe
  have := (h e he).2
  rw [hp e hpe] at this
  cases this

lemma isOpenOf_mem_tags {t e : Str} (ht : t ∈ tags4) (h : isOpenOf t e = true) :
    isOpenAny e = true := by
  unfold tags4 at ht
  simp only [List.mem_cons, List.not_mem_nil, or_false] at ht
  unfold isOpenAny
  rcases ht with rfl | rfl | rfl | rfl <;> simp [h]

lemma isClose_mem_tags {t e : Str} (ht : t ∈ tags4) (h : (e == mkClose t) = true) :
    isCloseAny e = true := by
  unfold tags4 at ht
  simp only [List.mem_cons, List.not_mem_nil, or_false] at ht
  unfold isCloseAny
  rcases ht with rfl | rfl | rfl | rfl <;> simp_all

/-- Appending output with per-prefix slack preserves the prefix
monotonicity of closes against opens. -/
lemma mono_append {o es : List Str}
    (h : ∀ n, closesAll (o.take n) ≤ opensAll (o.take n))
    (h2 : ∀ j, closesAll o + closesAll (es.take j) ≤ opensAll o + opensAll (es.take j)) :
    ∀ n, closesAll ((o ++ es).take n) ≤ opensAll ((o ++ es).take n) := by
  intro n
  unfold closesAll opensAll at *
  rw [List.take_append_eq_append_take, List.countP_append, List.countP_append]
  rcases le_or_lt n o.length with hle | hlt
  · have : n - o.length = 0 := Nat.sub_eq_zero_of_le hle
    rw [this]
    simpa using h n
  · have : o.take n = o := List.take_of_length_le (Nat.le_of_lt hlt)
    rw [this]
    exact h2 (n - o.length)

/-- Appending neutral elements preserves the invariant. -/
lemma InvP.append_neutral {o stk es} (h : InvP o stk) (hn : Neutral es) :
    InvP (o ++ es) stk := by
  obtain ⟨hc, htot, hmono, hchain, htags⟩ := h
  refine ⟨?_, ?_, ?_, hchain, htags⟩
  · intro t ht
    unfold openCount closeCount at *
    rw [List.countP_append, List.countP_append,
      countP_neutral_opens hn (fun e => isOpenOf_mem_tags ht),
      countP_neutral_closes hn (fun e => isClose_mem_tags ht)]
    simpa using hc t ht
  · unfold opensAll closesAll at *
    rw [List.countP_append, List.countP_append,
      countP_neutral_opens hn (fun e h => h), countP_neutral_closes hn (fun e h => h)]
    omega
  · refine mono_append hmono ?_
    intro j
    have hz : closesAll (es.take j) = 0 :=
      countP_neutral_closes (fun e he => hn e (List.mem_of_mem_take he)) (fun e h => h)
    rw [hz]
    have := hmono o.length
    simp only [List.take_length] at this
    omega

lemma mkClose_beq (a b : Str) : (mkClose a == mkClose b) = (a == b) := by
  by_cases h : a = b
  · subst h; simp
  · have h2 : ¬mkClose a = mkClose b := fun hc => h (mkClose_inj hc)
    simp [h, h2]

/-- `flush_paragraph` only appends neutral elements and leaves the stack
untouched. -/
lemma flushParagraph_spec (s : St) :
    ∃ es, (flushParagraph s).output = s.output ++ es ∧
      (flushParagraph s).section_stack = s.section_stack ∧ Neutral es := by
  unfold flushParagraph
  by_cases h : s.paragraph_lines.isEmpty
  · exact ⟨[], by simp [h], by simp [h], neutral_nil⟩
  · by_cases hc : (strip (joinSpace s.paragraph_lines)).isEmpty
    · exact ⟨[], by simp [h, hc], by simp [h], neutral_nil⟩
    · refine ⟨[str "<p>" ++ (fmt true (strip (joinSpace s.paragraph_lines)) ++ str "</p>")],
        by simp [h, hc], by simp [h], ?_⟩
      exact neutral_cons rfl rfl neutral_nil

lemma flushBlockquote_spec (s : St) :
    ∃ es, (flushBlockquote s).output = s.output ++ es ∧
      (flushBlockquote s).section_stack = s.section_stack ∧ Neutral es := by
  unfold flushBlockquote
  by_cases h : s.blockquote_lines.isEmpty
  · exact ⟨[], by simp [h], by simp [h], neutral_nil⟩
  · refine ⟨[str "<blockquote>",
      str "<p>" ++ (fmt true (strip (joinSpace s.blockquote_lines)) ++ str "</p>"),
      str "</blockquote>"], by simp [h], by simp [h], ?_⟩
    exact neutral_cons rfl rfl (neutral_cons rfl rfl (neutral_cons rfl rfl neutral_nil))

lemma flushList_spec (s : St) :
    ∃ es, (flushList s).output = s.output ++ es ∧
      (flushList s).section_stack = s.section_stack ∧ Neutral es := by
  unfold flushList
  by_cases h : s.list_lines.isEmpty
  · exact ⟨[], by simp [h], by simp [h], neutral_nil⟩
  · have hmapn :
        Neutral (s.list_lines.map
          (fun item => str "<li><p>" ++ (fmt true item ++ str "</p></li>"))) := by
      intro e he
      obtain ⟨a, _, rfl⟩ := List.mem_map.mp he
      exact ⟨rfl, rfl⟩
    by_cases ht : s.list_type = some (str "ul")
    · refine ⟨(str "<" ++ (str "ul" ++ str ">")) ::
        (s.list_lines.map (fun item => str "<li><p>" ++ (fmt true item ++ str "</p></li>")) ++
         [str "</" ++ (str "ul" ++ str ">")]), by simp [h, ht], by simp [h], ?_⟩
      exact neutral_cons rfl rfl
        (neutral_append hmapn (neutral_cons rfl rfl neutral_nil))
    · refine ⟨(str "<" ++ (str "ol" ++ str ">")) ::
        (s.list_lines.map (fun item => str "<li><p>" ++ (fmt true item ++ str "</p></li>")) ++
         [str "</" ++ (str "ol" ++ str ">")]), by simp [h, ht], by simp [h], ?_⟩
      exact neutral_cons rfl rfl
        (neutral_append hmapn (neutral_cons rfl rfl neutral_nil))

lemma flushCodeBlock_spec (s : St) :
    ∃ es, (flushCodeBlock s).output = s.output ++ es ∧
      (flushCodeBlock s).section_stack = s.section_stack ∧ Neutral es := by
  unfold flushCodeBlock
  by_cases h : s.code_block_lines.isEmpty
  · exact ⟨[], by simp [h], by simp [h], neutral_nil⟩
  · have hcon : Neutral [str "<console>",
        str "<output><![CDATA[" ++ (joinNL s.code_block_lines ++ str "]]></output>"),
        str "</console>"] :=
      neutral_cons rfl rfl (neutral_cons rfl rfl (neutral_cons rfl rfl neutral_nil))
    have hprog : Neutral [str "<program language=\"r\">",
        str "<input><![CDATA[" ++ (joinNL s.code_block_lines ++ str "]]></input>"),
        str "</program>"] :=
      neutral_cons rfl rfl (neutral_cons rfl rfl (neutral_cons rfl rfl neutral_nil))
    by_cases hl : dget s.code_block_params (str "lang") = some (.pstr (str "r"))
    · by_cases he : upper (match dget s.code_block_params (str "echo") with
          | some (.pstr v) => v
          | _ => str "TRUE") = str "FALSE" ∨
        upper (match dget s.code_block_params (str "eval") with
          | some (.pstr v) => v
          | _ => str "TRUE") = str "FALSE"
      · exact ⟨_, by simp [h, hl, he], by simp [h], hcon⟩
      · exact ⟨_, by simp [h, hl, he], by simp [h], hprog⟩
    · exact ⟨_, by simp [h, hl], by simp [h], hcon⟩

/-- The `close_sections` loop in closed form: it emits a close marker for
every popped entry (top first) and keeps the rest of the stack. -/
lemma closeAux_eq (lvl : Nat) (stk : List (Nat × Str)) (out : List Str) :
    closeAux lvl stk out =
      (out ++ (stk.takeWhile (fun e => decide (lvl ≤ e.1))).map (fun e => mkClose e.2),
       stk.dropWhile (fun e => decide (lvl ≤ e.1))) := by
  induction stk generalizing out with
  | nil => simp [closeAux]
  | cons e rest ih =>
    obtain ⟨l, t⟩ := e
    by_cases h : lvl ≤ l
    · simp [closeAux, h, List.takeWhile_cons, List.dropWhile_cons, ih, mkClose]
    · simp [closeAux, h, List.takeWhile_cons, List.dropWhile_cons]

lemma dropWhile_head_not {α : Type} (p : α → Bool) (l : List α) {a : α} {t : List α}
    (h : l.dropWhile p = a :: t) : p a = false := by
  induction l with
  | nil => cases h
  | cons x xs ih =>
    rw [List.dropWhile_cons] at h
    by_cases hx : p x
    · rw [if_pos hx] at h
      exact ih h
    · rw [if_neg hx] at h
      cases h
      exact Bool.eq_false_iff.mpr hx

/-- `close_sections` preserves the invariant; the new stack is the
dropped-while suffix. -/
lemma InvP.closeSec {o : List Str} {stk : List (Nat × Str)} (lvl : Nat) (h : InvP o stk) :
    InvP (o ++ (stk.takeWhile (fun e => decide (lvl ≤ e.1))).map (fun e => mkClose e.2))
      (stk.dropWhile (fun e => decide (lvl ≤ e.1))) := by
  obtain ⟨hc, htot, hmono, hchain, htags⟩ := h
  set p : Nat × Str → Bool := fun e => decide (lvl ≤ e.1) with hp
  set pop := stk.takeWhile p with hpop
  set rest := stk.dropWhile p with hrest
  have hsplit : pop ++ rest = stk := List.takeWhile_append_dropWhile p stk
  have hpoptags : ∀ e ∈ pop, e.2 ∈ tags4 := by
    intro e he
    exact htags e (by rw [← hsplit]; exact List.mem_append_left _ he)
  have hresttags : ∀ e ∈ rest, e.2 ∈ tags4 := by
    intro e he
    exact htags e (by rw [← hsplit]; exact List.mem_append_right _ he)
  have hcloseAny : ∀ e ∈ pop.map (fun e => mkClose e.2), isCloseAny e = true := by
    intro e he
    obtain ⟨a, ha, rfl⟩ := List.mem_map.mp he
    have := hpoptags a ha
    unfold tags4 at this
    simp only [List.mem_cons, List.not_mem_nil, or_false] at this
    unfold isCloseAny
    rcases this with h' | h' | h' | h' <;> rw [h'] <;> decide
  have hopenNone : ∀ t ∈ tags4, (pop.map (fun e => mkClose e.2)).countP (isOpenOf t) = 0 := by
    intro t ht
    rw [List.countP_eq_zero]
    intro e he
    obtain ⟨a, _, rfl⟩ := List.mem_map.mp he
    unfold tags4 at ht
    simp only [List.mem_cons, List.not_mem_nil, or_false] at ht
    rcases ht with rfl | rfl | rfl | rfl <;> exact fun hcon => by cases hcon
  have hopenNoneAny : (pop.map (fun e => mkClose e.2)).countP isOpenAny = 0 := by
    rw [List.countP_eq_zero]
    intro e he
    obtain ⟨a, _, rfl⟩ := List.mem_map.mp he
    exact fun hcon => by cases hcon
  have hlenle : pop.length ≤ stk.length := by
    rw [← hsplit, List.length_append]; omega
  refine ⟨?_, ?_, ?_, ?_, hresttags⟩
  · intro t ht
    have hbal := hc t ht
    unfold openCount closeCount at *
    rw [List.countP_append, List.countP_append, hopenNone t ht]
    have hcnt : (pop.map (fun e => mkClose e.2)).countP (fun e => e == mkClose t) =
        (pop.map Prod.snd).count t := by
      rw [List.countP_map, List.count, List.countP_map]
      apply List.countP_congr
      intro e _
      simp only [Function.comp_apply, mkClose_beq]
    rw [hcnt]
    have hstk : (stk.map Prod.snd).count t =
        (pop.map Prod.snd).count t + (rest.map Prod.snd).count t := by
      rw [← hsplit, List.map_append, List.count_append]
    omega
  · unfold opensAll closesAll at *
    rw [List.countP_append, List.countP_append, hopenNoneAny]
    have hall : (pop.map (fun e => mkClose e.2)).countP isCloseAny =
        pop.length := by
      rw [List.countP_eq_length.mpr hcloseAny, List.length_map]
    have hlen : rest.length = stk.length - pop.length := by
      rw [← hsplit, List.length_append]; omega
    rw [hall, hlen]
    omega
  · refine mono_append hmono ?_
    intro j
    have hle : closesAll ((pop.map (fun e => mkClose e.2)).take j) ≤ pop.length := by
      calc closesAll ((pop.map (fun e => mkClose e.2)).take j)
          ≤ ((pop.map (fun e => mkClose e.2)).take j).length := List.countP_le_length _
        _ ≤ (pop.map (fun e => mkClose e.2)).length := by
            rw [List.length_take]; omega
        _ = pop.length := List.length_map _ _
    unfold opensAll closesAll at *
    omega
  · exact List.Chain'.suffix hchain (List.dropWhile_suffix p)

/-- Opening a new section (open marker plus title element) preserves the
invariant when the new level strictly exceeds the remaining stack top. -/
lemma InvP.push {o : List Str} {stk : List (Nat × Str)} {level : Nat}
    {tag openEl titleEl : Str}
    (h : InvP o stk)
    (htag : tag ∈ tags4)
    (hopen : ∀ t ∈ tags4, isOpenOf t openEl = (t == tag))
    (hcl : isCloseAny openEl = false)
    (htno : isOpenAny titleEl = false) (htnc : isCloseAny titleEl = false)
    (hlt : ∀ e ∈ stk.head?, e.1 < level) :
    InvP (o ++ [openEl, titleEl]) ((level, tag) :: stk) := by
  obtain ⟨hc, htot, hmono, hchain, htags⟩ := h
  have hopenAny : isOpenAny openEl = true :=
    isOpenOf_mem_tags htag (by rw [hopen tag htag]; simp)
  have htitleOpen : ∀ t ∈ tags4, isOpenOf t titleEl = false := by
    intro t ht
    rcases Bool.eq_false_or_eq_true (isOpenOf t titleEl) with h' | h'
    · rw [isOpenOf_mem_tags ht h'] at htno; cases htno
    · exact h'
  have htitleClose : ∀ t ∈ tags4, (titleEl == mkClose t) = false := by
    intro t ht
    rcases Bool.eq_false_or_eq_true (titleEl == mkClose t) with h' | h'
    · rw [isClose_mem_tags ht h'] at htnc; cases htnc
    · exact h'
  have hopenClose : ∀ t ∈ tags4, (openEl == mkClose t) = false := by
    intro t ht
    rcases Bool.eq_false_or_eq_true (openEl == mkClose t) with h' | h'
    · rw [isClose_mem_tags ht h'] at hcl; cases hcl
    · exact h'
  refine ⟨?_, ?_, ?_, ?_, ?_⟩
  · intro t ht
    unfold openCount closeCount at *
    rw [List.countP_append, List.countP_append]
    have hopens : List.countP (isOpenOf t) [openEl, titleEl] =
        if (t == tag) = true then 1 else 0 := by
      simp [List.countP_cons, hopen t ht, htitleOpen t ht]
    have hcloses : List.countP (fun e => e == mkClose t) [openEl, titleEl] = 0 := by
      simp [List.countP_cons, hopenClose t ht, htitleClose t ht]
    rw [hopens, hcloses]
    have hcount : ((((level, tag) :: stk).map Prod.snd).count t) =
        ((stk.map Prod.snd).count t) + (if (t == tag) = true then 1 else 0) := by
      simp only [List.map_cons, List.count_cons]
      by_cases he : t = tag
      · subst he; simp
      · have h1 : (tag == t) = false := by simp [Ne.symm he]
        have h2 : (t == tag) = false := by simp [he]
        simp [h1, h2]
    rw [hcount]
    have := hc t ht
    omega
  · unfold opensAll closesAll at *
    rw [List.countP_append, List.countP_append]
    have h1 : List.countP isOpenAny [openEl, titleEl] = 1 := by
      simp [List.countP_cons, hopenAny, htno]
    have h2 : List.countP isCloseAny [openEl, titleEl] = 0 := by
      simp [List.countP_cons, hcl, htnc]
    rw [h1, h2]
    simp only [List.length_cons]
    omega
  · refine mono_append hmono ?_
    intro j
    have hz : closesAll ([openEl, titleEl].take j) = 0 := by
      rw [closesAll, List.countP_eq_zero]
      intro e he
      have he' := List.mem_of_mem_take he
      rcases List.mem_cons.mp he' with rfl | he''
      · simp [hcl]
      · rcases List.mem_cons.mp he'' with rfl | h3
        · simp [htnc]
        · cases h3
    rw [hz]
    have := hmono o.length
    simp only [List.take_length] at this
    omega
  · rw [List.chain'_cons']
    exact ⟨hlt, hchain⟩
  · intro e he
    rcases List.mem_cons.mp he with rfl | he'
    · exact htag
    · exact htags e he'

/-- The tag chosen for a heading of the given level in
`convert_ch4_statistical_theory.py`. -/
def tagOf (level : Nat) : Str :=
  if level == 1 then str "chapter"
  else if level == 2 then str "section"
  else if level == 3 then str "subsection"
  else str "subsubsection"

def openElOf (level : Nat) (xmlId : Option Str) : Str :=
  match xmlId with
  | some i => str "<" ++ tagOf level ++ str " xml:id=\"" ++ i ++ str "\">"
  | none => str "<" ++ tagOf level ++ str ">"

lemma tagOf_mem : ∀ level, tagOf level ∈ tags4 := by
  intro level
  unfold tagOf tags4
  split_ifs <;> simp

lemma openElOf_opens (level : Nat) (xmlId : Option Str) :
    ∀ t ∈ tags4, isOpenOf t (openElOf level xmlId) = (t == tagOf level) := by
  intro t ht
  unfold tags4 at ht
  simp only [List.mem_cons, List.not_mem_nil, or_false] at ht
  unfold openElOf tagOf
  rcases ht with rfl | rfl | rfl | rfl <;> cases xmlId <;> split_ifs <;> rfl

lemma openElOf_notClose (level : Nat) (xmlId : Option Str) :
    isCloseAny (openElOf level xmlId) = false := by
  unfold openElOf tagOf
  cases xmlId <;> split_ifs <;> rfl

lemma Inv.flushP {s : St} (h : Inv s) : Inv (flushParagraph s) := by
  obtain ⟨es, ho, hs, hn⟩ := flushParagraph_spec s
  unfold Inv
  rw [ho, hs]
  exact h.append_neutral hn

lemma Inv.flushB {s : St} (h : Inv s) : Inv (flushBlockquote s) := by
  obtain ⟨es, ho, hs, hn⟩ := flushBlockquote_spec s
  unfold Inv
  rw [ho, hs]
  exact h.append_neutral hn

lemma Inv.flushL {s : St} (h : Inv s) : Inv (flushList s) := by
  obtain ⟨es, ho, hs, hn⟩ := flushList_spec s
  unfold Inv
  rw [ho, hs]
  exact h.append_neutral hn

lemma Inv.flushC {s : St} (h : Inv s) : Inv (flushCodeBlock s) := by
  obtain ⟨es, ho, hs, hn⟩ := flushCodeBlock_spec s
  unfold Inv
  rw [ho, hs]
  exact h.append_neutral hn

lemma closeSections_out (lvl : Nat) (s : St) :
    (closeSections lvl s).output =
      s.output ++ ((s.section_stack.takeWhile (fun e => decide (lvl ≤ e.1))).map
        (fun e => mkClose e.2)) ∧
    (closeSections lvl s).section_stack =
      s.section_stack.dropWhile (fun e => decide (lvl ≤ e.1)) := by
  unfold closeSections
  rw [closeAux_eq]
  exact ⟨rfl, rfl⟩

lemma Inv.closeSections {s : St} (lvl : Nat) (h : Inv s) :
    Inv (Ch4.closeSections lvl s) := by
  obtain ⟨ho, hs⟩ := closeSections_out lvl s
  unfold Inv
  rw [ho, hs]
  exact InvP.closeSec lvl h

/-- The heading branch of `process_line` preserves the invariant. -/
lemma Inv.headingStep {s1 : St} (level : Nat) (title : Str) (xmlId : Option Str)
    (h : Inv s1) :
    Inv { Ch4.closeSections level s1 with
      output := (Ch4.closeSections level s1).output ++
        [openElOf level xmlId, str "<title>" ++ title ++ str "</title>"],
      section_stack := (level, tagOf level) :: (Ch4.closeSections level s1).section_stack } := by
  have h2 : Inv (Ch4.closeSections level s1) := h.closeSections level
  have hlt : ∀ e ∈ (Ch4.closeSections level s1).section_stack.head?, e.1 < level := by
    intro e he
    obtain ⟨t, htl⟩ := List.head?_eq_some_iff.mp he
    rw [(closeSections_out level s1).2] at htl
    have := dropWhile_head_not _ _ htl
    simp only [decide_eq_false_iff_not, not_le] at this
    exact this
  unfold Inv
  exact InvP.push h2 (tagOf_mem level) (openElOf_opens level xmlId)
    (openElOf_notClose level xmlId) rfl rfl hlt

/-- Every `process_line` step of `convert_ch4_statistical_theory.py`
preserves the balance invariant. -/
theorem processLine_inv (s : St) (line : Str) (h : Inv s) : Inv (processLine s line) := by
  unfold processLine
  split
  · -- ``` fence line
    split
    · exact h.flushC
    · exact h.flushP.flushL.flushB
  · split
    · -- inside a code block
      exact h
    · -- heading?
      split
      · -- heading branch
        exact Inv.headingStep _ _ _ h.flushP.flushL.flushB
      · -- non-heading branches
        split
        · -- blockquote start
          exact h.flushP.flushL
        · split
          · -- blockquote continuation
            exact h
          · split
            · -- blockquote flush on blank
              exact h.flushB
            · -- list / blank / paragraph
              split
              · -- list item: the ordered/unordered `if` then the
                -- kind-switch flush `if`
                split
                · dsimp only
                  split
                  · exact h.flushP.flushL
                  · exact h.flushP
                · dsimp only
                  split
                  · exact h.flushP.flushL
                  · exact h.flushP
              · split
                · -- blank line
                  exact h.flushP.flushL.flushB
                · -- paragraph text
                  exact h.flushL.flushB

lemma foldl_inv (lines : List Str) : ∀ s : St, Inv s → Inv (lines.foldl processLine s) := by
  induction lines with
  | nil => intro s h; exact h
  | cons l rest ih =>
    intro s h
    exact ih (processLine s l) (processLine_inv s l h)

lemma inv_init : Inv ({ initSt with
    output := [str "<?xml version=\"1.0\" encoding=\"UTF-8\"?>", []] } : St) := by
  refine ⟨?_, by decide, ?_, List.chain'_nil, by intro e he; cases he⟩
  · intro t ht
    unfold tags4 at ht
    simp only [List.mem_cons, List.not_mem_nil, or_false] at ht
    rcases ht with rfl | rfl | rfl | rfl <;> decide
  · intro n
    have hz : closesAll (List.take n
        [str "<?xml version=\"1.0\" encoding=\"UTF-8\"?>", ([] : Str)]) = 0 := by
      rw [closesAll, List.countP_eq_zero]
      intro e he
      have he' := List.mem_of_mem_take he
      rcases List.mem_cons.mp he' with rfl | he''
      · decide
      · rcases List.mem_cons.mp he'' with rfl | h3
        · decide
        · cases h3
    rw [hz]
    exact Nat.zero_le _

lemma inv_finalState (lines : List Str) : Inv (finalState lines) := by
  unfold finalState foldState
  exact (((foldl_inv lines _ inv_init).flushP).flushL.flushB).flushC

lemma takeWhile_zero (l : List (Nat × Str)) :
    l.takeWhile (fun e => decide (0 ≤ e.1)) = l ∧
    l.dropWhile (fun e => decide (0 ≤ e.1)) = [] := by
  induction l with
  | nil => exact ⟨rfl, rfl⟩
  | cons e rest ih =>
    constructor
    · rw [List.takeWhile_cons, if_pos (by simp)]
      rw [ih.1]
    · rw [List.dropWhile_cons, if_pos (by simp)]
      exact ih.2

/-- Structural open markers of `convert_anova_complete.py`'s output
(heading opens are indented two spaces and newline-terminated there). -/
def anovaOpenCount (o : List Str) : Nat :=
  o.countP (fun e =>
    startsW (str "<chapter") e || startsW (str "  <section") e ||
    startsW (str "  <subsection") e || startsW (str "  <subsubsection") e)

/-- Structural close markers of `convert_anova_complete.py`'s output. -/
def anovaCloseCount (o : List Str) : Nat :=
  o.countP (fun e => e == str "  </section>\n" || e == str "</chapter>\n")

end Balance

/-!
## Rewriting lemmas for `str.replace`, and the escape-idempotence development

`replaceAll` is fuel-driven; the lemmas below recover the natural
left-to-right rewriting equations and then characterise
`convert_anova_complete.py`'s `escape_xml` on ampersand-free input via a
token encoding: its output is a concatenation of ordinary characters
(none of `&<>`) and the two entities `&lt;` / `&gt;`, a shape the
function maps to itself. -/

namespace Esc

open PyStr

lemma aux_fuel (pat rep : Str) (hp : pat ≠ []) :
    ∀ (n : Nat) (s : Str), s.length ≤ n →
      replaceAllAux pat rep n s = replaceAllAux pat rep s.length s := by
  intro n
  induction n using Nat.strong_induction_on with
  | _ n ih =>
    intro s hs
    rcases s with _ | ⟨c, cs⟩
    · cases n <;> rfl
    · rcases n with _ | n
      · simp at hs
      · have hcs : cs.length ≤ n := by simpa using hs
        have hl : 0 < pat.length := List.length_pos.mpr hp
        by_cases hm : startsW pat (c :: cs) = true
        · have hd : ((c :: cs).drop pat.length).length ≤ cs.length := by
            rw [List.length_drop]
            simp only [List.length_cons]
            omega
          show (if startsW pat (c :: cs) then
              rep ++ replaceAllAux pat rep n ((c :: cs).drop pat.length)
            else c :: replaceAllAux pat rep n cs) =
            (if startsW pat (c :: cs) then
              rep ++ replaceAllAux pat rep cs.length ((c :: cs).drop pat.length)
            else c :: replaceAllAux pat rep cs.length cs)
          rw [if_pos hm]
          rw [ih n (Nat.lt_succ_self n) _ (le_trans hd hcs)]
          rw [ih cs.length (Nat.lt_succ_of_le hcs) _ hd]
          rw [if_pos hm]
        · show (if startsW pat (c :: cs) then
              rep ++ replaceAllAux pat rep n ((c :: cs).drop pat.length)
            else c :: replaceAllAux pat rep n cs) =
            (if startsW pat (c :: cs) then
              rep ++ replaceAllAux pat rep cs.length ((c :: cs).drop pat.length)
            else c :: replaceAllAux pat rep cs.length cs)
          rw [if_neg hm]
          rw [ih n (Nat.lt_succ_self n) cs hcs]
          rw [if_neg hm]

lemma replaceAll_cons_pos (pat rep : Str) (hp : pat ≠ []) (c : Char) (cs : Str)
    (h : startsW pat (c :: cs) = true) :
    replaceAll pat rep (c :: cs) = rep ++ replaceAll pat rep ((c :: cs).drop pat.length) := by
  have hl : 0 < pat.length := List.length_pos.mpr hp
  have hd : ((c :: cs).drop pat.length).length ≤ cs.length := by
    rw [List.length_drop]
    simp only [List.length_cons]
    omega
  show replaceAllAux pat rep (cs.length + 1) (c :: cs) = _
  show (if startsW pat (c :: cs) then
      rep ++ replaceAllAux pat rep cs.length ((c :: cs).drop pat.length)
    else c :: replaceAllAux pat rep cs.length cs) = _
  rw [if_pos h]
  rw [aux_fuel pat rep hp cs.length _ hd]
  rfl

lemma replaceAll_cons_neg (pat rep : Str) (c : Char) (cs : Str)
    (h : startsW pat (c :: cs) = false) :
    replaceAll pat rep (c :: cs) = c :: replaceAll pat rep cs := by
  show replaceAllAux pat rep (cs.length + 1) (c :: cs) = _
  show (if startsW pat (c :: cs) then
      rep ++ replaceAllAux pat rep cs.length ((c :: cs).drop pat.length)
    else c :: replaceAllAux pat rep cs.length cs) = _
  rw [if_neg (by simp [h])]
  rfl

lemma startsW_prefix : ∀ (p v : Str), startsW p (p ++ v) = true := by
  intro p
  induction p with
  | nil => intro v; rfl
  | cons c cs ih => intro v; simp [startsW, ih]

lemma startsW_cons_ne (c0 : Char) (p : Str) (c : Char) (cs : Str) (h : c ≠ c0) :
    startsW (c0 :: p) (c :: cs) = false := by
  show (c0 == c && startsW p cs) = false
  have : (c0 == c) = false := beq_eq_false_iff_ne.mpr (fun hh => h hh.symm)
  rw [this, Bool.false_and]

lemma replaceAll_prefix_match (pat rep v : Str) (c : Char) (cs : Str) (hc : pat = c :: cs) :
    replaceAll pat rep (pat ++ v) = rep ++ replaceAll pat rep v := by
  subst hc
  have hsw : startsW (c :: cs) (c :: (cs ++ v)) = true := by
    have := startsW_prefix (c :: cs) v
    simpa using this
  rw [List.cons_append, replaceAll_cons_pos _ _ (by simp) c (cs ++ v) hsw]
  congr 1
  simp only [List.length_cons, List.drop_succ_cons, List.drop_left]

lemma replaceAll_skip (pat : Str) (c0 : Char) (p rep : Str) (hp : pat = c0 :: p) :
    ∀ (u : Str), (∀ d ∈ u, d ≠ c0) → ∀ (v : Str),
      replaceAll pat rep (u ++ v) = u ++ replaceAll pat rep v := by
  intro u
  induction u with
  | nil => intro _ v; simp
  | cons d ds ih =>
    intro hu v
    have hne : startsW pat (d :: (ds ++ v)) = false := by
      rw [hp]
      exact startsW_cons_ne c0 p d _ (hu d (List.mem_cons_self d ds))
    rw [List.cons_append, replaceAll_cons_neg _ _ _ _ hne,
      ih (fun x hx => hu x (List.mem_cons_of_mem d hx)) v, List.cons_append]

lemma replaceAll_id_of_not_mem (pat : Str) (c0 : Char) (p rep : Str) (hp : pat = c0 :: p)
    (s : Str) (h : ∀ d ∈ s, d ≠ c0) :
    replaceAll pat rep s = s := by
  have h1 := replaceAll_skip pat c0 p rep hp s h []
  have h0 : replaceAll pat rep ([] : Str) = [] := rfl
  rw [h0, List.append_nil] at h1
  exact h1

lemma replaceAll_cons_ne_head (pat rep : Str) (c0 : Char) (p : Str) (hp : pat = c0 :: p)
    (c : Char) (cs : Str) (hc : c ≠ c0) :
    replaceAll pat rep (c :: cs) = c :: replaceAll pat rep cs :=
  replaceAll_cons_neg pat rep c cs (by rw [hp]; exact startsW_cons_ne c0 p c cs hc)

/-- A token of the escaped shape: an ordinary character, or one of the
two entities the escape inserts. -/
inductive Tok where
  | plain : Char → Tok
  | lt : Tok
  | gt : Tok

/-- The escaped string the token list denotes. -/
def enc : List Tok → Str
  | [] => []
  | .plain c :: ts => c :: enc ts
  | .lt :: ts => str "&lt;" ++ enc ts
  | .gt :: ts => str "&gt;" ++ enc ts

/-- The same list after the `&`-escaping pass ran again. -/
def encAmp : List Tok → Str
  | [] => []
  | .plain c :: ts => c :: encAmp ts
  | .lt :: ts => str "&amp;lt;" ++ encAmp ts
  | .gt :: ts => str "&amp;gt;" ++ encAmp ts

/-- The same after the `&amp;lt;` repair pass ran on `encAmp`. -/
def encF1 : List Tok → Str
  | [] => []
  | .plain c :: ts => c :: encF1 ts
  | .lt :: ts => str "&lt;" ++ encF1 ts
  | .gt :: ts => str "&amp;gt;" ++ encF1 ts

/-- An ordinary token carries none of the three escaped characters. -/
def okT : Tok → Prop
  | .plain c => c ≠ '&' ∧ c ≠ '<' ∧ c ≠ '>'
  | .lt => True
  | .gt => True

lemma amp_enc (ts : List Tok) (hok : ∀ t ∈ ts, okT t) :
    replaceAll (str "&") (str "&amp;") (enc ts) = encAmp ts := by
  induction ts with
  | nil => rfl
  | cons t ts ih =>
    have hok' : ∀ x ∈ ts, okT x := fun x hx => hok x (List.mem_cons_of_mem t hx)
    cases t with
    | plain c =>
      have hc : c ≠ '&' := (hok _ (List.mem_cons_self _ _)).1
      show replaceAll (str "&") (str "&amp;") (c :: enc ts) = c :: encAmp ts
      rw [replaceAll_cons_ne_head (str "&") (str "&amp;") '&' [] rfl c _ hc, ih hok']
    | lt =>
      show replaceAll (str "&") (str "&amp;") (str "&" ++ (str "lt;" ++ enc ts)) =
        str "&amp;" ++ (str "lt;" ++ encAmp ts)
      rw [replaceAll_prefix_match (str "&") (str "&amp;") _ '&' [] rfl,
        replaceAll_skip (str "&") '&' [] (str "&amp;") rfl (str "lt;") (by decide) (enc ts),
        ih hok']
    | gt =>
      show replaceAll (str "&") (str "&amp;") (str "&" ++ (str "gt;" ++ enc ts)) =
        str "&amp;" ++ (str "gt;" ++ encAmp ts)
      rw [replaceAll_prefix_match (str "&") (str "&amp;") _ '&' [] rfl,
        replaceAll_skip (str "&") '&' [] (str "&amp;") rfl (str "gt;") (by decide) (enc ts),
        ih hok']

lemma encAmp_chars (ts : List Tok) (hok : ∀ t ∈ ts, okT t) :
    ∀ d ∈ encAmp ts, d ≠ '<' ∧ d ≠ '>' := by
  induction ts with
  | nil => intro d hd; simp [encAmp] at hd
  | cons t ts ih =>
    have hok' : ∀ x ∈ ts, okT x := fun x hx => hok x (List.mem_cons_of_mem t hx)
    intro d hd
    cases t with
    | plain c =>
      have hc := hok _ (List.mem_cons_self _ _)
      have hd' : d ∈ c :: encAmp ts := hd
      rcases List.mem_cons.mp hd' with rfl | hmem
      · exact ⟨hc.2.1, hc.2.2⟩
      · exact ih hok' d hmem
    | lt =>
      have hd' : d ∈ str "&amp;lt;" ++ encAmp ts := hd
      rcases List.mem_append.mp hd' with hmem | hmem
      · exact (by decide : ∀ x ∈ str "&amp;lt;", x ≠ '<' ∧ x ≠ '>') d hmem
      · exact ih hok' d hmem
    | gt =>
      have hd' : d ∈ str "&amp;gt;" ++ encAmp ts := hd
      rcases List.mem_append.mp hd' with hmem | hmem
      · exact (by decide : ∀ x ∈ str "&amp;gt;", x ≠ '<' ∧ x ≠ '>') d hmem
      · exact ih hok' d hmem

lemma f1_encAmp (ts : List Tok) (hok : ∀ t ∈ ts, okT t) :
    replaceAll (str "&amp;lt;") (str "&lt;") (encAmp ts) = encF1 ts := by
  induction ts with
  | nil => rfl
  | cons t ts ih =>
    have hok' : ∀ x ∈ ts, okT x := fun x hx => hok x (List.mem_cons_of_mem t hx)
    cases t with
    | plain c =>
      have hc : c ≠ '&' := (hok _ (List.mem_cons_self _ _)).1
      show replaceAll (str "&amp;lt;") (str "&lt;") (c :: encAmp ts) = c :: encF1 ts
      rw [replaceAll_cons_ne_head (str "&amp;lt;") (str "&lt;") '&' (str "amp;lt;") rfl c _ hc,
        ih hok']
    | lt =>
      show replaceAll (str "&amp;lt;") (str "&lt;") (str "&amp;lt;" ++ encAmp ts) =
        str "&lt;" ++ encF1 ts
      rw [replaceAll_prefix_match (str "&amp;lt;") (str "&lt;") _ '&' (str "amp;lt;") rfl,
        ih hok']
    | gt =>
      show replaceAll (str "&amp;lt;") (str "&lt;") ('&' :: (str "amp;gt;" ++ encAmp ts)) =
        '&' :: (str "amp;gt;" ++ encF1 ts)
      have hne : startsW (str "&amp;lt;") ('&' :: (str "amp;gt;" ++ encAmp ts)) = false := by
        rfl
      rw [replaceAll_cons_neg _ _ _ _ hne,
        replaceAll_skip (str "&amp;lt;") '&' (str "amp;lt;") (str "&lt;") rfl
          (str "amp;gt;") (by decide) (encAmp ts),
        ih hok']

lemma f2_encF1 (ts : List Tok) (hok : ∀ t ∈ ts, okT t) :
    replaceAll (str "&amp;gt;") (str "&gt;") (encF1 ts) = enc ts := by
  induction ts with
  | nil => rfl
  | cons t ts ih =>
    have hok' : ∀ x ∈ ts, okT x := fun x hx => hok x (List.mem_cons_of_mem t hx)
    cases t with
    | plain c =>
      have hc : c ≠ '&' := (hok _ (List.mem_cons_self _ _)).1
      show replaceAll (str "&amp;gt;") (str "&gt;") (c :: encF1 ts) = c :: enc ts
      rw [replaceAll_cons_ne_head (str "&amp;gt;") (str "&gt;") '&' (str "amp;gt;") rfl c _ hc,
        ih hok']
    | lt =>
      show replaceAll (str "&amp;gt;") (str "&gt;") ('&' :: (str "lt;" ++ encF1 ts)) =
        '&' :: (str "lt;" ++ enc ts)
      have hne : startsW (str "&amp;gt;") ('&' :: (str "lt;" ++ encF1 ts)) = false := by
        rfl
      rw [replaceAll_cons_neg _ _ _ _ hne,
        replaceAll_skip (str "&amp;gt;") '&' (str "amp;gt;") (str "&gt;") rfl
          (str "lt;") (by decide) (encF1 ts),
        ih hok']
    | gt =>
      show replaceAll (str "&amp;gt;") (str "&gt;") (str "&amp;gt;" ++ encF1 ts) =
        str "&gt;" ++ enc ts
      rw [replaceAll_prefix_match (str "&amp;gt;") (str "&gt;") _ '&' (str "amp;gt;") rfl,
        ih hok']

lemma f1_enc (ts : List Tok) (hok : ∀ t ∈ ts, okT t) :
    replaceAll (str "&amp;lt;") (str "&lt;") (enc ts) = enc ts := by
  induction ts with
  | nil => rfl
  | cons t ts ih =>
    have hok' : ∀ x ∈ ts, okT x := fun x hx => hok x (List.mem_cons_of_mem t hx)
    cases t with
    | plain c =>
      have hc : c ≠ '&' := (hok _ (List.mem_cons_self _ _)).1
      show replaceAll (str "&amp;lt;") (str "&lt;") (c :: enc ts) = c :: enc ts
      rw [replaceAll_cons_ne_head (str "&amp;lt;") (str "&lt;") '&' (str "amp;lt;") rfl c _ hc,
        ih hok']
    | lt =>
      show replaceAll (str "&amp;lt;") (str "&lt;") ('&' :: (str "lt;" ++ enc ts)) =
        '&' :: (str "lt;" ++ enc ts)
      have hne : startsW (str "&amp;lt;") ('&' :: (str "lt;" ++ enc ts)) = false := by
        rfl
      rw [replaceAll_cons_neg _ _ _ _ hne,
        replaceAll_skip (str "&amp;lt;") '&' (str "amp;lt;") (str "&lt;") rfl
          (str "lt;") (by decide) (enc ts),
        ih hok']
    | gt =>
      show replaceAll (str "&amp;lt;") (str "&lt;") ('&' :: (str "gt;" ++ enc ts)) =
        '&' :: (str "gt;" ++ enc ts)
      have hne : startsW (str "&amp;lt;") ('&' :: (str "gt;" ++ enc ts)) = false := by
        rfl
      rw [replaceAll_cons_neg _ _ _ _ hne,
        replaceAll_skip (str "&amp;lt;") '&' (str "amp;lt;") (str "&lt;") rfl
          (str "gt;") (by decide) (enc ts),
        ih hok']

lemma f2_enc (ts : List Tok) (hok : ∀ t ∈ ts, okT t) :
    replaceAll (str "&amp;gt;") (str "&gt;") (enc ts) = enc ts := by
  induction ts with
  | nil => rfl
  | cons t ts ih =>
    have hok' : ∀ x ∈ ts, okT x := fun x hx => hok x (List.mem_cons_of_mem t hx)
    cases t with
    | plain c =>
      have hc : c ≠ '&' := (hok _ (List.mem_cons_self _ _)).1
      show replaceAll (str "&amp;gt;") (str "&gt;") (c :: enc ts) = c :: enc ts
      rw [replaceAll_cons_ne_head (str "&amp;gt;") (str "&gt;") '&' (str "amp;gt;") rfl c _ hc,
        ih hok']
    | lt =>
      show replaceAll (str "&amp;gt;") (str "&gt;") ('&' :: (str "lt;" ++ enc ts)) =
        '&' :: (str "lt;" ++ enc ts)
      have hne : startsW (str "&amp;gt;") ('&' :: (str "lt;" ++ enc ts)) = false := by
        rfl
      rw [replaceAll_cons_neg _ _ _ _ hne,
        replaceAll_skip (str "&amp;gt;") '&' (str "amp;gt;") (str "&gt;") rfl
          (str "lt;") (by decide) (enc ts),
        ih hok']
    | gt =>
      show replaceAll (str "&amp;gt;") (str "&gt;") ('&' :: (str "gt;" ++ enc ts)) =
        '&' :: (str "gt;" ++ enc ts)
      have hne : startsW (str "&amp;gt;") ('&' :: (str "gt;" ++ enc ts)) = false := by
        rfl
      rw [replaceAll_cons_neg _ _ _ _ hne,
        replaceAll_skip (str "&amp;gt;") '&' (str "amp;gt;") (str "&gt;") rfl
          (str "gt;") (by decide) (enc ts),
        ih hok']

/-- Every `&`-free string comes out of the `<`/`>` passes as an encoded
token list of ordinary characters and entities. -/
lemma stageA (s : Str) (h : ∀ d ∈ s, d ≠ '&') :
    ∃ ts : List Tok, (∀ t ∈ ts, okT t) ∧
      replaceAll (str ">") (str "&gt;")
        (replaceAll (str "<") (str "&lt;") s) = enc ts := by
  induction s with
  | nil => exact ⟨[], by intro t ht; simp at ht, rfl⟩
  | cons c cs ih =>
    obtain ⟨ts, hok, heq⟩ := ih (fun d hd => h d (List.mem_cons_of_mem c hd))
    have hc : c ≠ '&' := h c (List.mem_cons_self c cs)
    by_cases hlt : c = '<'
    · subst hlt
      refine ⟨Tok.lt :: ts, ?_, ?_⟩
      · intro t ht
        rcases List.mem_cons.mp ht with rfl | ht'
        · trivial
        · exact hok t ht'
      · have e1 : replaceAll (str "<") (str "&lt;") ('<' :: cs) =
            str "&lt;" ++ replaceAll (str "<") (str "&lt;") cs := by
          have := replaceAll_prefix_match (str "<") (str "&lt;") cs '<' [] rfl
          simpa using this
        rw [e1,
          replaceAll_skip (str ">") '>' [] (str "&gt;") rfl (str "&lt;") (by decide) _,
          heq]
        rfl
    · by_cases hgt : c = '>'
      · subst hgt
        refine ⟨Tok.gt :: ts, ?_, ?_⟩
        · intro t ht
          rcases List.mem_cons.mp ht with rfl | ht'
          · trivial
          · exact hok t ht'
        · have e1 : replaceAll (str "<") (str "&lt;") ('>' :: cs) =
              '>' :: replaceAll (str "<") (str "&lt;") cs :=
            replaceAll_cons_neg _ _ _ _ (startsW_cons_ne '<' [] '>' _ (by decide))
          have e2 : replaceAll (str ">") (str "&gt;")
              ('>' :: replaceAll (str "<") (str "&lt;") cs) =
              str "&gt;" ++ replaceAll (str ">") (str "&gt;")
                (replaceAll (str "<") (str "&lt;") cs) := by
            have := replaceAll_prefix_match (str ">") (str "&gt;")
              (replaceAll (str "<") (str "&lt;") cs) '>' [] rfl
            simpa using this
          rw [e1, e2, heq]
          rfl
      · refine ⟨Tok.plain c :: ts, ?_, ?_⟩
        · intro t ht
          rcases List.mem_cons.mp ht with rfl | ht'
          · exact ⟨hc, hlt, hgt⟩
          · exact hok t ht'
        · have e1 : replaceAll (str "<") (str "&lt;") (c :: cs) =
              c :: replaceAll (str "<") (str "&lt;") cs :=
            replaceAll_cons_neg _ _ _ _ (startsW_cons_ne '<' [] c _ hlt)
          have e2 : replaceAll (str ">") (str "&gt;")
              (c :: replaceAll (str "<") (str "&lt;") cs) =
              c :: replaceAll (str ">") (str "&gt;")
                (replaceAll (str "<") (str "&lt;") cs) :=
            replaceAll_cons_neg _ _ _ _ (startsW_cons_ne '>' [] c _ hgt)
          rw [e1, e2, heq]
          rfl

/-- `escape_xml` maps the escaped shape to itself. -/
lemma escapeXml_enc (ts : List Tok) (hok : ∀ t ∈ ts, okT t) :
    Anova.escapeXml (enc ts) = enc ts := by
  unfold Anova.escapeXml
  rw [amp_enc ts hok,
    replaceAll_id_of_not_mem (str "<") '<' [] (str "&lt;") rfl _
      (fun d hd => (encAmp_chars ts hok d hd).1),
    replaceAll_id_of_not_mem (str ">") '>' [] (str "&gt;") rfl _
      (fun d hd => (encAmp_chars ts hok d hd).2),
    f1_encAmp ts hok, f2_encF1 ts hok]

end Esc

/-!
## Buffer-preservation lemmas for `convert_ch_regression.py`'s `finalize` -/

namespace Reg

lemma flushParagraph_code (t : St) :
    (flushParagraph t).code_block_lines = t.code_block_lines := by
  unfold flushParagraph
  split <;> rfl

lemma flushBlockquote_code (t : St) :
    (flushBlockquote t).code_block_lines = t.code_block_lines := by
  unfold flushBlockquote
  split <;> rfl

lemma flushList_code (t : St) :
    (flushList t).code_block_lines = t.code_block_lines := by
  unfold flushList
  split <;> rfl

lemma flushCodeBlock_mem (t : St) (h : t.code_block_lines ≠ []) :
    PyStr.joinNL t.code_block_lines ∈ (flushCodeBlock t).output := by
  have h' : t.code_block_lines.isEmpty = false := by
    cases hx : t.code_block_lines with
    | nil => exact absurd hx h
    | cons a l => rfl
  unfold flushCodeBlock
  rw [h']
  by_cases hio : Py.dtruthy t.code_block_params (str "output") = true
  · simp [hio]
  · simp [hio]

end Reg

/-!
## Code-mode accumulation in `convert_ch6_bayes.py` -/

namespace Bayes

open PyStr

/-- While `in_code_block` is set, every line that is neither a new
```` ```{r ```` fence nor a bare closing fence is appended to the code
buffer and changes nothing else. -/
lemma code_accum (cs : List Str)
    (hc : ∀ c ∈ cs, startsW (str "```\x7br") c = false ∧ strip c ≠ str "```") :
    ∀ s : St, s.in_code_block = true →
      cs.foldl processLine s = { s with code_block_lines := s.code_block_lines ++ cs } := by
  induction cs with
  | nil => intro s _; simp
  | cons c cs ih =>
    intro s hs
    have hc1 := hc c (List.mem_cons_self c cs)
    have h2 : (strip c == str "```") = false := beq_eq_false_iff_ne.mpr hc1.2
    have hstep : processLine s c =
        { s with code_block_lines := s.code_block_lines ++ [c] } := by
      unfold processLine
      simp [hc1.1, h2, hs]
    rw [List.foldl_cons, hstep,
      ih (fun x hx => hc x (List.mem_cons_of_mem c hx))
        { s with code_block_lines := s.code_block_lines ++ [c] } (by exact hs)]
    simp [List.append_assoc]

/-- A bare closing fence in code mode flushes the block. -/
lemma close_fence (s : St) (hs : s.in_code_block = true) :
    processLine s (str "```") = flushCodeBlock s := by
  unfold processLine
  simp [hs, (by decide : startsW (str "```\x7br") (str "```") = false),
    (by decide : strip (str "```") = str "```")]

/-- `flush_code_block` with a truthy `output` parameter emits a `pre`
block. -/
lemma flush_pre (s : St) (hne : s.code_block_lines ≠ [])
    (hout : Py.dtruthy s.code_block_params (str "output") = true) :
    flushCodeBlock s = { s with
      output := s.output ++
        [str "    <pre>", joinNL s.code_block_lines, str "    </pre>"],
      code_block_lines := [], in_code_block := false, code_block_params := [] } := by
  have h' : s.code_block_lines.isEmpty = false := by
    cases hx : s.code_block_lines with
    | nil => exact absurd hx hne
    | cons a l => rfl
  unfold flushCodeBlock
  rw [h']
  simp [hout]

/-- `flush_code_block` without a truthy `output` parameter emits a
`program` block. -/
lemma flush_program (s : St) (hne : s.code_block_lines ≠ [])
    (hout : Py.dtruthy s.code_block_params (str "output") = false) :
    flushCodeBlock s = { s with
      output := s.output ++
        [str "    <program language=\"r\">", str "      <input><![CDATA[",
         joinNL s.code_block_lines, str "]]></input>", str "    </program>"],
      code_block_lines := [], in_code_block := false, code_block_params := [] } := by
  have h' : s.code_block_lines.isEmpty = false := by
    cases hx : s.code_block_lines with
    | nil => exact absurd hx hne
    | cons a l => rfl
  unfold flushCodeBlock
  rw [h']
  simp [hout]

/-- When the final state has nothing buffered and no open sections,
`convert` returns exactly its output list. -/
lemma convert_tail (lines : List Str) (sF : St)
    (hfold : lines.foldl processLine
      { initSt with
        output := [str "<?xml version=\"1.0\" encoding=\"UTF-8\" ?>", []] } = sF)
    (hp : sF.paragraph_lines = []) (hb : sF.blockquote_lines = [])
    (hl : sF.list_lines = []) (hcb : sF.code_block_lines = [])
    (hstk : sF.section_stack = []) :
    convert lines = sF.output := by
  have e1 : flushParagraph sF = sF := by
    unfold flushParagraph
    rw [hp]
    simp
  have e2 : flushBlockquote sF = sF := by
    unfold flushBlockquote
    rw [hb]
    simp
  have e3 : flushList sF = sF := by
    unfold flushList
    rw [hl]
    simp
  have e4 : flushCodeBlock sF = sF := by
    unfold flushCodeBlock
    rw [hcb]
    simp
  unfold convert
  dsimp only
  rw [hfold, e1, e2, e3, e4, hstk]
  simp [popAbove1]

end Bayes

/-!
## Generic lemmas about the `re.sub` scanner

Identity of a pass when its pattern can match nowhere, the exact result
of a pass whose pattern matches the whole input once, congruence in the
replacement function, and character-set preservation. -/

namespace Scan

open PyStr Rx

lemma mem_of_startsW : ∀ (op t : Str), startsW op t = true → ∀ x ∈ op, x ∈ t := by
  intro op
  induction op with
  | nil => intro t _ x hx; simp at hx
  | cons o os ih =>
    intro t h x hx
    cases t with
    | nil => simp [startsW] at h
    | cons c cs =>
      have h' : (o == c) = true ∧ startsW os cs = true := by
        simpa [startsW, Bool.and_eq_true] using h
      rcases List.mem_cons.mp hx with rfl | hx'
      · rw [show x = c from beq_iff_eq.mp h'.1]
        exact List.mem_cons_self c cs
      · exact List.mem_cons_of_mem c (ih cs h'.2 x hx')

lemma startsW_false_of_missing (op t : Str) (x : Char) (hop : x ∈ op) (ht : x ∉ t) :
    startsW op t = false := by
  cases h : startsW op t with
  | false => rfl
  | true => exact absurd (mem_of_startsW op t h x hop) ht

lemma startsW_append_both : ∀ (u v w : Str), startsW (u ++ v) (u ++ w) = startsW v w := by
  intro u
  induction u with
  | nil => intro v w; rfl
  | cons c cs ih => intro v w; simp [startsW, ih]

lemma matchAt_none_startsW (p : Pat) (prev : Option Char) (t : Str)
    (h : startsW p.op t = false) : matchAt p prev t = none := by
  simp [matchAt, h]

lemma findCl_none (p : Pat) (c1 : Char) (cs1 : Str) (hcl : p.cl = c1 :: cs1) :
    ∀ (s acc : Str), (∀ d ∈ s, d ≠ c1) → findCl p s acc = none := by
  intro s
  induction s with
  | nil => intro acc _; rfl
  | cons c rest ih =>
    intro acc hs
    have hc : c ≠ c1 := hs c (List.mem_cons_self c rest)
    have hsw : startsW p.cl (c :: rest) = false := by
      rw [hcl]
      exact Esc.startsW_cons_ne c1 cs1 c rest hc
    unfold findCl
    rw [if_neg (fun hand => by rw [hsw] at hand; exact Bool.false_ne_true hand.2.1)]
    by_cases hb : p.bad c = true
    · rw [if_pos hb]
    · rw [if_neg hb, ih (c :: acc) (fun d hd => hs d (List.mem_cons_of_mem c hd))]

lemma matchAt_none_noclose (p : Pat) (c1 : Char) (cs1 : Str) (hcl : p.cl = c1 :: cs1)
    (prev : Option Char) (t : Str) (hmiss : ∀ d ∈ t, d ≠ c1) : matchAt p prev t = none := by
  unfold matchAt
  by_cases h : p.lbOK prev = true ∧ startsW p.op t = true
  · rw [if_pos h]
    exact findCl_none p c1 cs1 hcl _ []
      (fun d hd => hmiss d (List.mem_of_mem_drop hd))
  · rw [if_neg h]

lemma subMAux_id (m : Option Char → Str → Option (Str × Str × Option Char)) :
    ∀ (n : Nat) (prev : Option Char) (s : Str),
      (∀ (prev' : Option Char) (t : Str), t.IsSuffix s → m prev' t = none) →
      subMAux m n prev s = s := by
  intro n
  induction n with
  | zero => intro prev s _; rfl
  | succ n ih =>
    intro prev s h
    cases s with
    | nil => rfl
    | cons c cs =>
      show (match m prev (c :: cs) with
        | some (rep, rest, p') => rep ++ subMAux m n p' rest
        | none => c :: subMAux m n (some c) cs) = c :: cs
      rw [h prev (c :: cs) (List.suffix_refl _)]
      rw [ih (some c) cs
        (fun prev' t ht => h prev' t (ht.trans (List.suffix_cons c cs)))]

lemma subP_id (p : Pat) (mk : Str → Str) (s : Str)
    (h : ∀ (prev : Option Char) (t : Str), t.IsSuffix s → matchAt p prev t = none) :
    subP p mk s = s :=
  subMAux_id _ s.length none s (fun prev' t ht => by simp [patM, h prev' t ht])

lemma subP_id_char (p : Pat) (mk : Str → Str) (s : Str) (x : Char) (hop : x ∈ p.op)
    (hs : ∀ d ∈ s, d ≠ x) : subP p mk s = s :=
  subP_id p mk s (fun prev t ht => matchAt_none_startsW p prev t
    (startsW_false_of_missing p.op t x hop (fun hmem => hs x (ht.subset hmem) rfl)))

lemma subP_id_noclose (p : Pat) (mk : Str → Str) (c1 : Char) (cs1 : Str)
    (hcl : p.cl = c1 :: cs1) (s : Str) (hs : ∀ d ∈ s, d ≠ c1) : subP p mk s = s :=
  subP_id p mk s (fun prev t ht =>
    matchAt_none_noclose p c1 cs1 hcl prev t (fun d hd => hs d (ht.subset hd)))

lemma findCl_scan (p : Pat) (c1 : Char) (hcl : p.cl = [c1]) (hla : ∀ x, p.laOK x = true) :
    ∀ (u acc : Str), (∀ d ∈ u, p.bad d = false ∧ d ≠ c1) →
      p.minLen ≤ acc.length + u.length →
      ∀ w, findCl p (u ++ c1 :: w) acc = some (acc.reverse ++ u, w) := by
  intro u
  induction u with
  | nil =>
    intro acc _ hmin w
    show findCl p (c1 :: w) acc = _
    unfold findCl
    rw [if_pos ⟨by simpa using hmin,
      by rw [hcl]; simp [startsW], by rw [hla]⟩]
    rw [hcl]
    simp
  | cons d ds ih =>
    intro acc hu hmin w
    have hd := hu d (List.mem_cons_self d ds)
    have hsw : startsW p.cl (d :: (ds ++ c1 :: w)) = false := by
      rw [hcl]
      exact Esc.startsW_cons_ne c1 [] d _ hd.2
    show findCl p (d :: (ds ++ c1 :: w)) acc = _
    unfold findCl
    rw [if_neg (fun hand => by rw [hsw] at hand; exact Bool.false_ne_true hand.2.1)]
    rw [if_neg (by rw [hd.1]; exact Bool.false_ne_true)]
    rw [ih (d :: acc) (fun x hx => hu x (List.mem_cons_of_mem d hx))
      (by simp only [List.length_cons] at hmin ⊢; omega) w]
    simp

lemma matchAt_fire (p : Pat) (c1 : Char) (hcl : p.cl = [c1]) (hla : ∀ x, p.laOK x = true)
    (hlb : ∀ x, p.lbOK x = true) (prev : Option Char) (u w : Str)
    (hu : ∀ d ∈ u, p.bad d = false ∧ d ≠ c1) (hmin : p.minLen ≤ u.length) :
    matchAt p prev (p.op ++ (u ++ c1 :: w)) = some (u, w) := by
  unfold matchAt
  rw [if_pos ⟨hlb prev, Esc.startsW_prefix p.op _⟩, List.drop_left,
    findCl_scan p c1 hcl hla u [] hu (by simpa using hmin) w]
  simp

lemma subMAux_nil (m : Option Char → Str → Option (Str × Str × Option Char)) :
    ∀ (n : Nat) (prev : Option Char), subMAux m n prev [] = [] := by
  intro n prev
  cases n <;> rfl

lemma subP_fire_whole (p : Pat) (mk : Str → Str) (c1 o1 : Char) (os : Str)
    (hop : p.op = o1 :: os) (hcl : p.cl = [c1]) (hla : ∀ x, p.laOK x = true)
    (hlb : ∀ x, p.lbOK x = true) (u : Str)
    (hu : ∀ d ∈ u, p.bad d = false ∧ d ≠ c1) (hmin : p.minLen ≤ u.length) :
    subP p mk (p.op ++ (u ++ [c1])) = mk u := by
  have hm : patM p mk none (p.op ++ (u ++ [c1])) = some (mk u, [], p.cl.getLast?) := by
    unfold patM
    rw [show (u ++ [c1] : Str) = u ++ c1 :: [] from rfl,
      matchAt_fire p c1 hcl hla hlb none u [] hu hmin]
  unfold subP subM
  rw [hop] at hm ⊢
  rw [List.cons_append]
  rw [List.cons_append] at hm
  show (match patM p mk none (o1 :: (os ++ (u ++ [c1]))) with
    | some (rep, rest, p') =>
      rep ++ subMAux (patM p mk) (os ++ (u ++ [c1])).length p' rest
    | none =>
      o1 :: subMAux (patM p mk) (os ++ (u ++ [c1])).length (some o1) (os ++ (u ++ [c1]))) =
    mk u
  rw [hm]
  dsimp only
  rw [subMAux_nil]
  simp

/-- Decomposition of a suffix of `a ++ b`. -/
lemma isSuffix_append (a b t : Str) (h : t.IsSuffix (a ++ b)) :
    t.IsSuffix b ∨ ∃ t', t'.IsSuffix a ∧ t' ≠ [] ∧ t = t' ++ b := by
  induction a with
  | nil => left; simpa using h
  | cons x xs ih =>
    rcases h with ⟨pre, hpre⟩
    cases pre with
    | nil =>
      right
      refine ⟨x :: xs, List.suffix_refl _, by simp, ?_⟩
      simpa using hpre
    | cons y ys =>
      have h' : t.IsSuffix (xs ++ b) := ⟨ys, by
        have := hpre
        rw [List.cons_append, List.cons_append] at this
        exact (List.cons.injEq _ _ _ _).mp this |>.2⟩
      rcases ih h' with hb | ⟨t', ht1, ht2, ht3⟩
      · left; exact hb
      · right; exact ⟨t', ht1.trans (List.suffix_cons x xs), ht2, ht3⟩

/-- Where the pieces of a successful close search come from: the content
is collected from scanned characters that all failed the bad-class test
(or came from the accumulator), and the remainder is part of the scanned
string. -/
lemma findCl_parts (p : Pat) :
    ∀ (s acc cnt rest : Str), findCl p s acc = some (cnt, rest) →
      (∀ d ∈ cnt, (d ∈ s ∧ p.bad d = false) ∨ d ∈ acc) ∧ (∀ d ∈ rest, d ∈ s) := by
  intro s
  induction s with
  | nil => intro acc cnt rest h; simp [findCl] at h
  | cons c r ih =>
    intro acc cnt rest h
    unfold findCl at h
    split at h
    · have h' : acc.reverse = cnt ∧ (c :: r).drop p.cl.length = rest := by
        simpa using h
      constructor
      · intro d hd
        right
        rw [← h'.1] at hd
        exact List.mem_reverse.mp hd
      · intro d hd
        rw [← h'.2] at hd
        exact List.mem_of_mem_drop hd
    · split at h
      · exact absurd h (by simp)
      · rename_i hb
        obtain ⟨hcnt, hrest⟩ := ih (c :: acc) cnt rest h
        constructor
        · intro d hd
          rcases hcnt d hd with ⟨hmem, hbad⟩ | hacc
          · exact Or.inl ⟨List.mem_cons_of_mem c hmem, hbad⟩
          · rcases List.mem_cons.mp hacc with rfl | h2
            · refine Or.inl ⟨List.mem_cons_self _ _, ?_⟩
              cases hx : p.bad d with
              | false => rfl
              | true => exact absurd hx hb
            · exact Or.inr h2
        · intro d hd
          exact List.mem_cons_of_mem c (hrest d hd)

lemma matchAt_parts (p : Pat) (prev : Option Char) (s cnt rest : Str)
    (h : matchAt p prev s = some (cnt, rest)) :
    (∀ d ∈ cnt, d ∈ s ∧ p.bad d = false) ∧ (∀ d ∈ rest, d ∈ s) := by
  unfold matchAt at h
  split at h
  · obtain ⟨h1, h2⟩ := findCl_parts p _ [] cnt rest h
    constructor
    · intro d hd
      rcases h1 d hd with ⟨hmem, hbad⟩ | habs
      · exact ⟨List.mem_of_mem_drop hmem, hbad⟩
      · simp at habs
    · exact fun d hd => List.mem_of_mem_drop (h2 d hd)
  · exact absurd h (by simp)

/-- Two `re.sub` passes with the same pattern agree when their
replacement callbacks agree on every bad-character-free content group. -/
lemma subM_patM_congr (p : Pat) (mk1 mk2 : Str → Str)
    (hmk : ∀ c, (∀ d ∈ c, p.bad d = false) → mk1 c = mk2 c) :
    ∀ (n : Nat) (prev : Option Char) (s : Str),
      subMAux (patM p mk1) n prev s = subMAux (patM p mk2) n prev s := by
  intro n
  induction n with
  | zero => intro prev s; rfl
  | succ n ih =>
    intro prev s
    cases s with
    | nil => rfl
    | cons c cs =>
      show (match patM p mk1 prev (c :: cs) with
        | some (rep, rest, p') => rep ++ subMAux (patM p mk1) n p' rest
        | none => c :: subMAux (patM p mk1) n (some c) cs) =
        (match patM p mk2 prev (c :: cs) with
        | some (rep, rest, p') => rep ++ subMAux (patM p mk2) n p' rest
        | none => c :: subMAux (patM p mk2) n (some c) cs)
      cases hma : matchAt p prev (c :: cs) with
      | none =>
        have e1 : patM p mk1 prev (c :: cs) = none := by simp [patM, hma]
        have e2 : patM p mk2 prev (c :: cs) = none := by simp [patM, hma]
        rw [e1, e2]
        dsimp only
        rw [ih]
      | some pr =>
        obtain ⟨cnt, rest⟩ := pr
        have hcnt : ∀ d ∈ cnt, p.bad d = false :=
          fun d hd => ((matchAt_parts p prev _ cnt rest hma).1 d hd).2
        have e1 : patM p mk1 prev (c :: cs) = some (mk1 cnt, rest, p.cl.getLast?) := by
          simp [patM, hma]
        have e2 : patM p mk2 prev (c :: cs) = some (mk2 cnt, rest, p.cl.getLast?) := by
          simp [patM, hma]
        rw [e1, e2]
        dsimp only
        rw [hmk cnt hcnt, ih]

lemma subP_congr (p : Pat) (mk1 mk2 : Str → Str)
    (hmk : ∀ c, (∀ d ∈ c, p.bad d = false) → mk1 c = mk2 c) (s : Str) :
    subP p mk1 s = subP p mk2 s :=
  subM_patM_congr p mk1 mk2 hmk s.length none s

/-- A `re.sub` pass preserves a character predicate when the replacement
callback does. -/
lemma subM_patM_chars (p : Pat) (mk : Str → Str) (P : Char → Prop)
    (hmk : ∀ c, (∀ d ∈ c, P d) → ∀ d ∈ mk c, P d) :
    ∀ (n : Nat) (prev : Option Char) (s : Str), (∀ d ∈ s, P d) →
      ∀ d ∈ subMAux (patM p mk) n prev s, P d := by
  intro n
  induction n with
  | zero => intro prev s hs; exact hs
  | succ n ih =>
    intro prev s hs
    cases s with
    | nil => intro d hd; rw [subMAux_nil] at hd; simp at hd
    | cons c cs =>
      show ∀ d ∈ (match patM p mk prev (c :: cs) with
        | some (rep, rest, p') => rep ++ subMAux (patM p mk) n p' rest
        | none => c :: subMAux (patM p mk) n (some c) cs), P d
      cases hma : matchAt p prev (c :: cs) with
      | none =>
        have e : patM p mk prev (c :: cs) = none := by simp [patM, hma]
        rw [e]
        dsimp only
        intro d hd
        rcases List.mem_cons.mp hd with rfl | hd'
        · exact hs d (List.mem_cons_self _ _)
        · exact ih (some c) cs (fun x hx => hs x (List.mem_cons_of_mem c hx)) d hd'
      | some pr =>
        obtain ⟨cnt, rest⟩ := pr
        have hparts := matchAt_parts p prev _ cnt rest hma
        have e : patM p mk prev (c :: cs) = some (mk cnt, rest, p.cl.getLast?) := by
          simp [patM, hma]
        rw [e]
        dsimp only
        intro d hd
        rcases List.mem_append.mp hd with hd' | hd'
        · exact hmk cnt (fun x hx => hs x ((hparts.1 x hx).1)) d hd'
        · exact ih p.cl.getLast? rest (fun x hx => hs x (hparts.2 x hx)) d hd'

lemma subP_chars (p : Pat) (mk : Str → Str) (P : Char → Prop)
    (hmk : ∀ c, (∀ d ∈ c, P d) → ∀ d ∈ mk c, P d) (s : Str) (hs : ∀ d ∈ s, P d) :
    ∀ d ∈ subP p mk s, P d :=
  subM_patM_chars p mk P hmk s.length none s hs

/-- A protect pass preserves a character predicate on its text result
when every placeholder token does. -/
lemma subSaveAux_chars (p : Pat) (store : Str → Str) (tokenOf : Nat → Str) (P : Char → Prop)
    (htok : ∀ i, ∀ d ∈ tokenOf i, P d) :
    ∀ (n : Nat) (prev : Option Char) (s : Str) (parts : List Str), (∀ d ∈ s, P d) →
      ∀ d ∈ (subSaveAux p store tokenOf n prev s parts).1, P d := by
  intro n
  induction n with
  | zero => intro prev s parts hs; exact hs
  | succ n ih =>
    intro prev s parts hs
    cases s with
    | nil => intro d hd; simp [subSaveAux] at hd
    | cons c cs =>
      show ∀ d ∈ (match matchAt p prev (c :: cs) with
        | some (cnt, rest) =>
          let r := subSaveAux p store tokenOf n (p.cl.getLast?) rest (parts ++ [store cnt])
          (tokenOf parts.length ++ r.1, r.2)
        | none =>
          let r := subSaveAux p store tokenOf n (some c) cs parts
          (c :: r.1, r.2)).1, P d
      cases hma : matchAt p prev (c :: cs) with
      | none =>
        dsimp only
        intro d hd
        rcases List.mem_cons.mp hd with rfl | hd'
        · exact hs d (List.mem_cons_self _ _)
        · exact ih (some c) cs parts (fun x hx => hs x (List.mem_cons_of_mem c hx)) d hd'
      | some pr =>
        obtain ⟨cnt, rest⟩ := pr
        have hparts := matchAt_parts p prev _ cnt rest hma
        dsimp only
        intro d hd
        rcases List.mem_append.mp hd with hd' | hd'
        · exact htok parts.length d hd'
        · exact ih p.cl.getLast? rest (parts ++ [store cnt])
            (fun x hx => hs x (hparts.2 x hx)) d hd'

lemma subSave_chars (p : Pat) (store : Str → Str) (tokenOf : Nat → Str) (P : Char → Prop)
    (htok : ∀ i, ∀ d ∈ tokenOf i, P d) (s : Str) (hs : ∀ d ∈ s, P d) :
    ∀ d ∈ (subSave p store tokenOf s).1, P d :=
  subSaveAux_chars p store tokenOf P htok s.length none s [] hs

/-- `str.replace` preserves a character predicate the replacement text
satisfies. -/
lemma replaceAllAux_chars (pat rep : Str) (P : Char → Prop) (hrep : ∀ d ∈ rep, P d) :
    ∀ (n : Nat) (s : Str), (∀ d ∈ s, P d) → ∀ d ∈ replaceAllAux pat rep n s, P d := by
  intro n
  induction n with
  | zero => intro s hs; exact hs
  | succ n ih =>
    intro s hs
    cases s with
    | nil => intro d hd; simp [replaceAllAux] at hd
    | cons c cs =>
      show ∀ d ∈ (if startsW pat (c :: cs) then
          rep ++ replaceAllAux pat rep n ((c :: cs).drop pat.length)
        else c :: replaceAllAux pat rep n cs), P d
      split
      · intro d hd
        rcases List.mem_append.mp hd with hd' | hd'
        · exact hrep d hd'
        · exact ih _ (fun x hx => hs x (List.mem_of_mem_drop hx)) d hd'
      · intro d hd
        rcases List.mem_cons.mp hd with rfl | hd'
        · exact hs d (List.mem_cons_self _ _)
        · exact ih cs (fun x hx => hs x (List.mem_cons_of_mem c hx)) d hd'

lemma replaceAll_chars (pat rep : Str) (P : Char → Prop) (hrep : ∀ d ∈ rep, P d)
    (s : Str) (hs : ∀ d ∈ s, P d) : ∀ d ∈ replaceAll pat rep s, P d :=
  replaceAllAux_chars pat rep P hrep s.length s hs

lemma digitChar_mem (k : Nat) :
    digitChar k ∈ (['0', '1', '2', '3', '4', '5', '6', '7', '8', '9'] : List Char) := by
  unfold digitChar
  repeat' split
  all_goals decide

lemma natStrAux_chars : ∀ (f k : Nat), ∀ d ∈ natStrAux f k,
    d ∈ (['0', '1', '2', '3', '4', '5', '6', '7', '8', '9'] : List Char) := by
  intro f
  induction f with
  | zero => intro k d hd; simp [natStrAux] at hd
  | succ f ih =>
    intro k d hd
    unfold natStrAux at hd
    split at hd
    · rw [List.mem_singleton.mp hd]
      exact digitChar_mem k
    · rcases List.mem_append.mp hd with hd' | hd'
      · exact ih _ d hd'
      · rw [List.mem_singleton.mp hd']
        exact digitChar_mem (k % 10)

lemma natStr_chars (k : Nat) : ∀ d ∈ natStr k,
    d ∈ (['0', '1', '2', '3', '4', '5', '6', '7', '8', '9'] : List Char) :=
  natStrAux_chars (k + 1) k

lemma contains_singleton_false (c d : Char) (h : d ≠ c) :
    ([c] : List Char).contains d = false := by
  simp only [List.contains, List.elem_cons, List.elem_nil]
  rw [beq_eq_false_iff_ne.mpr h]

/-- A pass whose opener nowhere fits `L ++ M` is the identity there:
any suffix either lies in `M` (where a character of the opener is
missing), is all of `L` (where the opener fails right after the common
prefix), or starts strictly inside `L` with a character that is not the
opener's first. -/
lemma subP_skip (p : Pat) (mk : Str → Str) (o1 : Char) (os L common R L2 M : Str)
    (x : Char) (hop1 : p.op = o1 :: os) (hop2 : p.op = common ++ R)
    (hdec : L = common ++ L2) (hx : x ∈ p.op) (hxM : ∀ d ∈ M, d ≠ x)
    (hfailR : startsW R (L2 ++ M) = false)
    (hsfx : ∀ t', t'.IsSuffix L → t' ≠ [] →
      t' = L ∨ ∃ c cs, t' = c :: cs ∧ c ≠ o1) :
    subP p mk (L ++ M) = L ++ M := by
  apply subP_id
  intro prev t ht
  apply matchAt_none_startsW
  rcases isSuffix_append L M t ht with hM | ⟨t', ht1, ht2, rfl⟩
  · exact startsW_false_of_missing _ _ x hx (fun hmem => hxM x (hM.subset hmem) rfl)
  · rcases hsfx t' ht1 ht2 with rfl | ⟨c, cs, rfl, hc⟩
    · rw [hdec, hop2, List.append_assoc, startsW_append_both]
      exact hfailR
    · rw [hop1, List.cons_append]
      exact Esc.startsW_cons_ne o1 os c _ hc

/-- The nonempty suffixes of the literal `\@ref(tab:`. -/
lemma sfx_tab (t' : Str) (h : t'.IsSuffix (str "\\@ref(tab:")) (hne : t' ≠ []) :
    t' = str "\\@ref(tab:" ∨ ∃ c cs, t' = c :: cs ∧ c ≠ '\\' := by
  have h' : t'.IsSuffix
      ('\\' :: '@' :: 'r' :: 'e' :: 'f' :: '(' :: 't' :: 'a' :: 'b' :: ':' :: []) := h
  simp only [List.suffix_cons_iff, List.suffix_nil] at h'
  rcases h' with rfl | rfl | rfl | rfl | rfl | rfl | rfl | rfl | rfl | rfl | rfl
  · left; rfl
  · right; exact ⟨'@', _, rfl, by decide⟩
  · right; exact ⟨'r', _, rfl, by decide⟩
  · right; exact ⟨'e', _, rfl, by decide⟩
  · right; exact ⟨'f', _, rfl, by decide⟩
  · right; exact ⟨'(', _, rfl, by decide⟩
  · right; exact ⟨'t', _, rfl, by decide⟩
  · right; exact ⟨'a', _, rfl, by decide⟩
  · right; exact ⟨'b', _, rfl, by decide⟩
  · right; exact ⟨':', _, rfl, by decide⟩
  · exact absurd rfl hne

/-- The nonempty suffixes of the literal `\@ref(`. -/
lemma sfx_plain (t' : Str) (h : t'.IsSuffix (str "\\@ref(")) (hne : t' ≠ []) :
    t' = str "\\@ref(" ∨ ∃ c cs, t' = c :: cs ∧ c ≠ '\\' := by
  have h' : t'.IsSuffix ('\\' :: '@' :: 'r' :: 'e' :: 'f' :: '(' :: []) := h
  simp only [List.suffix_cons_iff, List.suffix_nil] at h'
  rcases h' with rfl | rfl | rfl | rfl | rfl | rfl | rfl
  · left; rfl
  · right; exact ⟨'@', _, rfl, by decide⟩
  · right; exact ⟨'r', _, rfl, by decide⟩
  · right; exact ⟨'e', _, rfl, by decide⟩
  · right; exact ⟨'f', _, rfl, by decide⟩
  · right; exact ⟨'(', _, rfl, by decide⟩
  · exact absurd rfl hne

lemma mem_append3 {P : Char → Prop} (a m b : Str) (ha : ∀ d ∈ a, P d)
    (hm : ∀ d ∈ m, P d) (hb : ∀ d ∈ b, P d) : ∀ d ∈ a ++ m ++ b, P d := by
  intro d hd
  rcases List.mem_append.mp hd with h | h
  · rcases List.mem_append.mp h with h' | h'
    · exact ha d h'
    · exact hm d h'
  · exact hb d h

/-- `convert_cross_refs`' underscore normalisation, characterised
pointwise. -/
lemma hyph_map (s : Str) :
    Ch3.hyph s = s.map (fun c => if c = '_' then '-' else c) := by
  induction s with
  | nil => rfl
  | cons c cs ih =>
    unfold Ch3.hyph at ih ⊢
    by_cases hc : c = '_'
    · subst hc
      have e : replaceAll (str "_") (str "-") ('_' :: cs) =
          str "-" ++ replaceAll (str "_") (str "-") cs := by
        have e2 := Esc.replaceAll_prefix_match (str "_") (str "-") cs '_' [] rfl
        simpa using e2
      rw [e, ih]
      show '-' :: List.map (fun c => if c = '_' then '-' else c) cs = _
      simp
    · rw [Esc.replaceAll_cons_ne_head (str "_") (str "-") '_' [] rfl c cs hc, ih]
      simp [hc]

lemma hyph_chars (P : Char → Prop) (hP : P '-') (s : Str) (hs : ∀ d ∈ s, P d) :
    ∀ d ∈ Ch3.hyph s, P d := by
  rw [hyph_map]
  intro d hd
  obtain ⟨c, hc, rfl⟩ := List.mem_map.mp hd
  by_cases hu : c = '_'
  · simpa [hu] using hP
  · simpa [hu] using hs c hc

end Scan

/-!
## Footnote-recursion analysis for `convert_ch6_bayes.py`

The footnote content class `[^\]]+` admits no `]`, no earlier pass of
`convert_inline_formatting` introduces a `]` into the working text (the
placeholder tokens, emphasis wrappers and xref markers are all
`]`-free), and a `]`-free text makes the footnote pass a no-op — so the
recursion depth is structurally capped: one nested level always
suffices. -/

namespace Bayes

open PyStr Rx

lemma codeTok_chars : ∀ i, ∀ d ∈ codeTok i, d ≠ ']' := by
  intro i
  unfold codeTok
  exact Scan.mem_append3 _ _ _ (by decide)
    (fun d hd => (by decide : ∀ x ∈ (['0', '1', '2', '3', '4', '5', '6', '7', '8', '9'] :
      List Char), x ≠ ']') d (Scan.natStr_chars i d hd)) (by decide)

lemma dispTok_chars : ∀ i, ∀ d ∈ dispTok i, d ≠ ']' := by
  intro i
  unfold dispTok
  exact Scan.mem_append3 _ _ _ (by decide)
    (fun d hd => (by decide : ∀ x ∈ (['0', '1', '2', '3', '4', '5', '6', '7', '8', '9'] :
      List Char), x ≠ ']') d (Scan.natStr_chars i d hd)) (by decide)

lemma mathTok_chars : ∀ i, ∀ d ∈ mathTok i, d ≠ ']' := by
  intro i
  unfold mathTok
  exact Scan.mem_append3 _ _ _ (by decide)
    (fun d hd => (by decide : ∀ x ∈ (['0', '1', '2', '3', '4', '5', '6', '7', '8', '9'] :
      List Char), x ≠ ']') d (Scan.natStr_chars i d hd)) (by decide)

lemma emWrap_chars : ∀ c : Str, (∀ d ∈ c, d ≠ ']') → ∀ d ∈ emWrap c, d ≠ ']' := by
  intro c hc
  unfold emWrap
  exact Scan.mem_append3 _ _ _ (by decide) hc (by decide)

lemma xrefMk_chars : ∀ c : Str, (∀ d ∈ c, d ≠ ']') → ∀ d ∈ xrefMk c, d ≠ ']' := by
  intro c hc
  unfold xrefMk
  exact Scan.mem_append3 _ _ _ (by decide) hc (by decide)

/-- On a `]`-free input, running `convert_inline_formatting` *with* the
footnote pass (any recursion function) and running it *without* the
footnote pass give the same result: the working text is still `]`-free
when the footnote pass runs, so that pass can never find a close. -/
lemma core_fn_id (f : Str → Str) (c : Str) (hc : ∀ d ∈ c, d ≠ ']') :
    convertInlineCore f true false c = convertInlineCore id false false c := by
  unfold convertInlineCore
  dsimp only
  have hc1 : ∀ d ∈ replaceAll (str "\\$") litDollar c, d ≠ ']' :=
    Scan.replaceAll_chars _ _ _ (by decide) c hc
  rcases h2 : subSave (Pat.classy (str "`") (str "`") ['`']) id codeTok
    (replaceAll (str "\\$") litDollar c) with ⟨t2, cp⟩
  dsimp only
  have hc2 : ∀ d ∈ t2, d ≠ ']' := by
    have h := Scan.subSave_chars (Pat.classy (str "`") (str "`") ['`']) id codeTok
      _ codeTok_chars _ hc1
    rw [h2] at h
    exact fun d hd => h d hd
  rcases h3 : subSave (Pat.plain (str "$$") (str "$$")) dispStore dispTok t2 with ⟨t3, dp⟩
  dsimp only
  have hc3 : ∀ d ∈ t3, d ≠ ']' := by
    have h := Scan.subSave_chars (Pat.plain (str "$$") (str "$$")) dispStore dispTok
      _ dispTok_chars _ hc2
    rw [h3] at h
    exact fun d hd => h d hd
  rcases h4 : subSave (Pat.classy (str "$") (str "$") ['$']) mathStore mathTok t3
    with ⟨t4, mp⟩
  dsimp only
  have hc4 : ∀ d ∈ t4, d ≠ ']' := by
    have h := Scan.subSave_chars (Pat.classy (str "$") (str "$") ['$']) mathStore mathTok
      _ mathTok_chars _ hc3
    rw [h4] at h
    exact fun d hd => h d hd
  simp only [if_true, if_false, eq_self_iff_true, Bool.false_eq_true]
  have hc6 := Scan.subP_chars (Pat.plain (str "***") (str "***")) emWrap _
    emWrap_chars _ hc4
  have hc7 := Scan.subP_chars (Pat.plain (str "**_") (str "_**")) emWrap _
    emWrap_chars _ hc6
  have hc8 := Scan.subP_chars (Pat.plain (str "_**") (str "**_")) emWrap _
    emWrap_chars _ hc7
  have hc9 := Scan.subP_chars (Pat.plain (str "**") (str "**")) emWrap _
    emWrap_chars _ hc8
  have hc10 := Scan.subP_chars (Pat.plain (str "__") (str "__")) emWrap _
    emWrap_chars _ hc9
  have hc11 := Scan.subP_chars (Pat.classy (str "*") (str "*") ['*']) emWrap _
    emWrap_chars _ hc10
  have hc12 := Scan.subP_chars underIt emWrap _ emWrap_chars _ hc11
  have hc13 := Scan.subP_chars (Pat.classy (str "\\@ref(") (str ")") [')']) xrefMk _
    xrefMk_chars _ hc12
  rw [Scan.subP_id_noclose (Pat.classy (str "^[") (str "]") [']'])
    (fun g => str "<fn>" ++ f g ++ str "</fn>") ']' [] rfl _ hc13]

/-- Two recursion functions that agree on `]`-free content give the same
`convert_inline_formatting` at the top level. -/
lemma core_congr (f1 f2 : Str → Str) (esc : Bool) (t : Str)
    (hf : ∀ c, (∀ d ∈ c, d ≠ ']') → f1 c = f2 c) :
    convertInlineCore f1 true esc t = convertInlineCore f2 true esc t := by
  unfold convertInlineCore
  dsimp only
  rcases h2 : subSave (Pat.classy (str "`") (str "`") ['`']) id codeTok
    (replaceAll (str "\\$") litDollar t) with ⟨t2, cp⟩
  dsimp only
  rcases h3 : subSave (Pat.plain (str "$$") (str "$$")) dispStore dispTok t2 with ⟨t3, dp⟩
  dsimp only
  rcases h4 : subSave (Pat.classy (str "$") (str "$") ['$']) mathStore mathTok t3
    with ⟨t4, mp⟩
  dsimp only
  simp only [if_true, if_false, eq_self_iff_true, Bool.false_eq_true]
  rw [Scan.subP_congr (Pat.classy (str "^[") (str "]") [']'])
    (fun g => str "<fn>" ++ f1 g ++ str "</fn>")
    (fun g => str "<fn>" ++ f2 g ++ str "</fn>")
    (fun g hgb => by
      have hg : ∀ d ∈ g, d ≠ ']' := by
        intro d hd he
        have hb := hgb d hd
        rw [he] at hb
        exact absurd hb (by decide)
      dsimp only
      rw [hf g hg])]

/-- At every recursion depth the footnote function computes the same
thing on the `]`-free contents it is given. -/
lemma fnEq : ∀ (n : Nat) (c : Str), (∀ d ∈ c, d ≠ ']') →
    convertInline n false c = convertInline 0 false c := by
  intro n
  cases n with
  | zero => intro c _; rfl
  | succ m =>
    intro c hc
    show convertInlineCore (convertInline m false) true false c =
      convertInlineCore id false false c
    exact core_fn_id _ c hc

end Bayes

/-!
## The claims -/

/-!
## The claims -/

/-- **C1** (counterexample).  The claim, read over the cited
`convert_anova_complete.py`, is false: on the empty input the converter
emits its fixed trailer `  </section>` `</chapter>` although no
structural node was ever opened, so the number of close markers (2)
exceeds the number of open markers (0) — both the "one close per open"
equality and the "closes never exceed opens" prefix condition fail. -/
theorem claim_C1_counterexample :
    Balance.anovaCloseCount (Anova.convertFile []) = 2 ∧
    Balance.anovaOpenCount (Anova.convertFile []) = 0 ∧
    Balance.anovaCloseCount (Anova.convertFile []) ≠
      Balance.anovaOpenCount (Anova.convertFile []) := by
  refine ⟨by decide, by decide, by decide⟩

/-- **C1** (amended).  For the `convert_ch4_statistical_theory.py`
converter the claim holds for *every* finite input line sequence: each of
the four structural tags is opened exactly as often as it is closed, in
every prefix of the output the running number of close markers never
exceeds the running number of open markers, and the output ends with one
close marker for every still-open node, emitted from the top of the
section stack downwards — deepest first, as the still-open levels
strictly decrease from the stack top.  (The bayes and anova-complete
variants guarantee none of this unconditionally, as the counterexample
shows.) -/
theorem claim_C1_amended (lines : List Str) :
    (∀ t ∈ Balance.tags4,
      Balance.openCount t (Ch4.convert lines) = Balance.closeCount t (Ch4.convert lines)) ∧
    (∀ n, Balance.closesAll ((Ch4.convert lines).take n) ≤
      Balance.opensAll ((Ch4.convert lines).take n)) ∧
    Ch4.convert lines = (Ch4.finalState lines).output ++
      ((Ch4.finalState lines).section_stack.map (fun e => Balance.mkClose e.2)) ∧
    List.Chain' (fun a b : Nat × Str => b.1 < a.1) (Ch4.finalState lines).section_stack := by
  have hInv := Balance.inv_finalState lines
  have hout := Balance.closeSections_out 0 (Ch4.finalState lines)
  have htw := Balance.takeWhile_zero (Ch4.finalState lines).section_stack
  have hfinalInv : Balance.Inv (Ch4.closeSections 0 (Ch4.finalState lines)) :=
    hInv.closeSections 0
  have hstk : (Ch4.closeSections 0 (Ch4.finalState lines)).section_stack = [] := by
    rw [hout.2, htw.2]
  have hconv : Ch4.convert lines = (Ch4.closeSections 0 (Ch4.finalState lines)).output := rfl
  obtain ⟨hc, _, hmono, _, _⟩ := hfinalInv
  refine ⟨?_, ?_, ?_, hInv.2.2.2.1⟩
  · intro t ht
    have h2 := hc t ht
    rw [hstk] at h2
    simp only [List.map_nil, List.count_nil, Nat.add_zero] at h2
    rw [hconv]
    exact h2
  · intro n
    rw [hconv]
    exact hmono n
  · rw [hconv, hout.1, htw.1]

/-- **C2** (counterexample).  Two of the cited converters violate the
close-to-parent rule at the claim's own input `## A`, `### B`, `## C`.
In `convert_ch6_bayes.py` with no chapter on the stack, the `## C`
branch pops nothing (its loop only runs above depth 2 and its extra pop
requires `section` on top, but `subsection` is), so C's `<section>`
(element 8) is emitted while B's `<subsection>` is still open —
`</subsection>` appears only in the end-of-input trailer, *after*
`</section>`, so B is closed neither inside A nor before C opens.  In
`convert_anova_complete.py` a heading never closes anything: C's
`<section>` is again emitted with B open, and no `</subsection>` appears
anywhere in the output (last conjunct). -/
theorem claim_C2_counterexample :
    Bayes.convert [str "## A", str "### B", str "## C"] =
      [str "<?xml version=\"1.0\" encoding=\"UTF-8\" ?>", [],
       str "  <section>", str "    <title>A</title>", [],
       str "    <subsection>", str "      <title>B</title>", [],
       str "  <section>", str "    <title>C</title>", [],
       str "  </section>", str "    </subsection>"] ∧
    Anova.convertFile [str "## A\n", str "### B\n", str "## C\n"] =
      [str "<?xml version=\"1.0\" encoding=\"UTF-8\" ?>\n", str "\n",
       str "  <section>\n", str "    <title>A</title>\n\n",
       str "  <subsection>\n", str "    <title>B</title>\n\n",
       str "  <section>\n", str "    <title>C</title>\n\n",
       str "  </section>\n", str "</chapter>\n"] ∧
    ∀ e ∈ Anova.convertFile [str "## A\n", str "### B\n", str "## C\n"],
      PyStr.hasSub (str "</subsection>") e = false := by
  refine ⟨by decide, by decide, by decide⟩

/-- **C2** (amended).  The close-to-parent rule holds for
`convert_ch4_statistical_theory.py`: (general part) `close_sections`
emits, before a heading of depth `d` is opened, one close marker for each
open node of depth ≥ `d` (the `takeWhile` part of the stack, popped top
first), keeping exactly the nodes of depth < `d` open, so the new node
becomes a sibling under the nearest shallower ancestor; (concrete part)
the input `## A`, `### B`, `## C` produces two sibling top-level section
nodes, with subsection `B` closed inside `A` before `C` opens.  The
bayes and anova-complete variants break both parts, as the
counterexample shows. -/
theorem claim_C2_close_to_parent :
    (∀ (lvl : Nat) (s : Ch4.St),
      (Ch4.closeSections lvl s).output = s.output ++
        ((s.section_stack.takeWhile (fun e => decide (lvl ≤ e.1))).map
          (fun e => Balance.mkClose e.2)) ∧
      (Ch4.closeSections lvl s).section_stack =
        s.section_stack.dropWhile (fun e => decide (lvl ≤ e.1))) ∧
    Ch4.convert [str "## A", str "### B", str "## C"] =
      [str "<?xml version=\"1.0\" encoding=\"UTF-8\"?>", [],
       str "<section>", str "<title>A</title>",
       str "<subsection>", str "<title>B</title>",
       str "</subsection>", str "</section>",
       str "<section>", str "<title>C</title>",
       str "</section>"] :=
  ⟨fun lvl s => Balance.closeSections_out lvl s, by decide⟩

/-- **C3** (code bug).  Placeholder restoration is *not* complete.  In
`convert_ch3_intro_r.py` math is restored after code, so the code
placeholder produced inside a math span is never replaced: input
`$` `` ` ``a`` ` `` `$` returns `<m>__CODE_0__</m>` with the synthetic
token `__CODE_0__` left in the output.  In `convert_ch6_bayes.py` the
bold pass `__(.+?)__` mangles the escaped-dollar placeholder
`___LITERAL_DOLLAR___` itself: input `\$5` returns
`<em>_LITERAL_DOLLAR</em>_5`, so the literal dollar is never restored.
Both evaluations are reproduced here on the embedded pipelines. -/
theorem claim_C3_leftover_placeholders :
    Ch3.convertInlineFormatting true (str "$`a`$") = str "<m>__CODE_0__</m>" ∧
    PyStr.hasSub (str "__CODE_0__") (Ch3.convertInlineFormatting true (str "$`a`$")) = true ∧
    Bayes.fmt true (str "\\$5") = str "<em>_LITERAL_DOLLAR</em>_5" ∧
    PyStr.hasSub (str "_LITERAL_DOLLAR") (Bayes.fmt true (str "\\$5")) = true := by
  refine ⟨by decide, by decide, by decide, by decide⟩

/-- **C4** (counterexample).  In `convert_ch6_bayes.py` the list handler
keys only on "am I inside a list", not on the list's kind: `- a`
immediately followed by `1. b` produces a *single* `<ul>` holding both
items — the unordered list is not flushed and no `<ol>` is opened. -/
theorem claim_C4_counterexample :
    Bayes.convert [str "- a", str "1. b"] =
      [str "<?xml version=\"1.0\" encoding=\"UTF-8\" ?>", [],
       str "    <ul>",
       str "      <li><p>a</p></li>",
       str "      <li><p>b</p></li>",
       str "    </ul>"] := by decide

/-- **C4** (amended).  The claim holds for
`convert_ch4_statistical_theory.py`, whose list handler compares the new
item's kind with `list_type`: `- a` immediately followed by `1. b`
(no blank line) flushes the complete `<ul>` block and opens a fresh
`<ol>` block for the second item. -/
theorem claim_C4_amended :
    Ch4.convert [str "- a", str "1. b"] =
      [str "<?xml version=\"1.0\" encoding=\"UTF-8\"?>", [],
       str "<ul>", str "<li><p>a</p></li>", str "</ul>",
       str "<ol>", str "<li><p>b</p></li>", str "</ol>"] := by decide

/-- **C5**.  Emphasis precedence in `convert_ch3_intro_r.py`: the
`***...***` transform runs before the `**...**` and `*...*` transforms,
so `***strong-term***` becomes the single node
`<term>strong-term</term>`, not a nested bold-inside-italic pair. -/
theorem claim_C5_triple_emphasis :
    Ch3.convertInlineFormatting true (str "***strong-term***") =
      str "<term>strong-term</term>" := by decide

/-- **C6** (counterexample).  Neither cited escape function is
idempotent on an ampersand: both send `&` to `&amp;` and then re-escape
that to `&amp;amp;` on a second pass (the anova variant's repair passes
fix up only `&amp;lt;`/`&amp;gt;`, not a bare `&amp;`), and the bayes
variant even double-escapes the plain text `a<b` (no repair passes), so
"an ampersand escapes to one canonical form and is never re-escaped"
fails. -/
theorem claim_C6_counterexample :
    Anova.escapeXml (str "&") = str "&amp;" ∧
    Anova.escapeXml (Anova.escapeXml (str "&")) = str "&amp;amp;" ∧
    Anova.escapeXml (Anova.escapeXml (str "&")) ≠ Anova.escapeXml (str "&") ∧
    Bayes.escapeXmlText (Bayes.escapeXmlText (str "&")) ≠ Bayes.escapeXmlText (str "&") ∧
    Bayes.escapeXmlText (Bayes.escapeXmlText (str "a<b")) ≠ Bayes.escapeXmlText (str "a<b") := by
  refine ⟨by decide, by decide, by decide, by decide, by decide⟩

/-- **C6** (amended).  `convert_anova_complete.py`'s `escape_xml` *is*
idempotent on every string that contains no ampersand (it still escapes
`<` and `>` there, and its `&amp;lt;`/`&amp;gt;` repair passes undo
exactly the re-escaping of the entities it inserted); only a literal
`&` in the input breaks idempotence, as the counterexample shows. -/
theorem claim_C6_amended (s : Str) (h : '&' ∉ s) :
    Anova.escapeXml (Anova.escapeXml s) = Anova.escapeXml s := by
  have h' : ∀ d ∈ s, d ≠ '&' := fun d hd he => h (he ▸ hd)
  obtain ⟨ts, hok, heq⟩ := Esc.stageA s h'
  have h1 : Anova.escapeXml s = Esc.enc ts := by
    unfold Anova.escapeXml
    rw [Esc.replaceAll_id_of_not_mem (str "&") '&' [] (str "&amp;") rfl s h', heq,
      Esc.f1_enc ts hok, Esc.f2_enc ts hok]
  rw [h1, Esc.escapeXml_enc ts hok]

/-- **C6** (witness): the amended theorem at the concrete `&`-free input
`R<-1`, where the escape does real work. -/
theorem claim_C6_witness :
    '&' ∉ str "R<-1" ∧
    Anova.escapeXml (str "R<-1") = str "R&lt;-1" ∧
    Anova.escapeXml (Anova.escapeXml (str "R<-1")) = Anova.escapeXml (str "R<-1") :=
  ⟨by decide, by decide, claim_C6_amended (str "R<-1") (by decide)⟩

/-- **C7** (counterexample).  In `convert_anova_complete.py` an unclosed
code fence is silently discarded: the input opens a fence and buffers
`hello`, but end-of-input emits only the fixed trailer — no element of
the output contains the buffered line. -/
theorem claim_C7_counterexample :
    Anova.convertFile [str "```\n", str "hello\n"] =
      [str "<?xml version=\"1.0\" encoding=\"UTF-8\" ?>\n", str "\n",
       str "  </section>\n", str "</chapter>\n"] ∧
    ∀ e ∈ Anova.convertFile [str "```\n", str "hello\n"],
      PyStr.hasSub (str "hello") e = false := by
  refine ⟨by decide, by decide⟩

/-- **C7** (amended).  The claim holds for `convert_ch_regression.py`:
its `finalize` flushes the code buffer through `flush_code_block`
*before* closing the open sections, so for every converter state with a
nonempty code buffer the joined buffer appears in the final output (as
the CDATA payload element of the emitted `pre` or `program` block),
whether or not the closing fence was ever seen. -/
theorem claim_C7_amended (s : Reg.St) (h : s.code_block_lines ≠ []) :
    PyStr.joinNL s.code_block_lines ∈ (Reg.finalize s).output := by
  have hkeep : (Reg.flushList (Reg.flushBlockquote
      (Reg.flushParagraph s))).code_block_lines = s.code_block_lines := by
    rw [Reg.flushList_code, Reg.flushBlockquote_code, Reg.flushParagraph_code]
  have hmem : PyStr.joinNL s.code_block_lines ∈
      (Reg.flushCodeBlock (Reg.flushList (Reg.flushBlockquote
        (Reg.flushParagraph s)))).output := by
    have := Reg.flushCodeBlock_mem
      (Reg.flushList (Reg.flushBlockquote (Reg.flushParagraph s)))
      (by rw [hkeep]; exact h)
    rw [hkeep] at this
    exact this
  unfold Reg.finalize
  exact List.mem_append.mpr (Or.inl hmem)

/-- **C7** (witness): the amended theorem at a concrete state holding an
unclosed two-line buffer. -/
theorem claim_C7_witness :
    ({ Reg.initSt with
        in_code_block := true
        code_block_lines := [str "x <- 1", str "x"] } : Reg.St).code_block_lines ≠ [] ∧
    PyStr.joinNL ({ Reg.initSt with
        in_code_block := true
        code_block_lines := [str "x <- 1", str "x"] } : Reg.St).code_block_lines ∈
      (Reg.finalize { Reg.initSt with
        in_code_block := true
        code_block_lines := [str "x <- 1", str "x"] }).output :=
  ⟨by decide, claim_C7_amended _ (by decide)⟩

/-- **C8** (counterexample).  The cited `convert_ch6_bayes.py` xref pass
is a bare `\@ref((…))` → `<xref ref="…"/>` rewrite: on
`\@ref(fig:my_plot)` it produces `<xref ref="fig:my_plot"/>` — the
`fig:` category is not resolved to a `fig-` target-id prefix (no `fig-`
substring in the output) and the underscore is kept, not normalised to a
hyphen — so the claim is false on a cited source. -/
theorem claim_C8_counterexample :
    Bayes.fmt true (str "\\@ref(fig:my_plot)") = str "<xref ref=\"fig:my_plot\"/>" ∧
    PyStr.hasSub (str "fig-") (Bayes.fmt true (str "\\@ref(fig:my_plot)")) = false ∧
    PyStr.hasChar '_' (Bayes.fmt true (str "\\@ref(fig:my_plot)")) = true := by
  refine ⟨by decide, by decide, by decide⟩

/-- **C8** (amended).  Cross-reference conversion as claimed holds in
`convert_ch3_intro_r.py`'s `convert_cross_refs`, for every directive id
that avoids the scanner's meta-characters (`)`, `\`, `:`, space):
`\@ref(fig:X)` becomes a reference marker with target-id prefix `fig-`,
`\@ref(tab:X)` one with prefix `table-`, plain `\@ref(X)` one with no
prefix — and in each the id is underscore-normalised, every `_` becoming
`-` (last conjunct, pointwise).  The bayes inline pass resolves no
prefix and normalises nothing, as the counterexample shows. -/
theorem claim_C8_crossrefs (id : Str) (hne : id ≠ [])
    (hok : ∀ c ∈ id, c ≠ ')' ∧ c ≠ '\\' ∧ c ≠ ':' ∧ c ≠ ' ') :
    Ch3.convertCrossRefs (str "\\@ref(fig:" ++ (id ++ str ")")) =
      str "<xref ref=\"fig-" ++ Ch3.hyph id ++ str "\" />" ∧
    Ch3.convertCrossRefs (str "\\@ref(tab:" ++ (id ++ str ")")) =
      str "<xref ref=\"table-" ++ Ch3.hyph id ++ str "\" />" ∧
    Ch3.convertCrossRefs (str "\\@ref(" ++ (id ++ str ")")) =
      str "<xref ref=\"" ++ Ch3.hyph id ++ str "\" />" ∧
    Ch3.hyph id = id.map (fun c => if c = '_' then '-' else c) := by
  have hid_sp : ∀ d ∈ id, d ≠ ' ' := fun d hd => (hok d hd).2.2.2
  have hid_co : ∀ d ∈ id, d ≠ ':' := fun d hd => (hok d hd).2.2.1
  have hid_bs : ∀ d ∈ id, d ≠ '\\' := fun d hd => (hok d hd).2.1
  have hM_co : ∀ d ∈ (id ++ str ")" : Str), d ≠ ':' := by
    intro d hd
    rcases List.mem_append.mp hd with h | h
    · exact hid_co d h
    · exact (by decide : ∀ x ∈ (str ")" : Str), x ≠ ':') d h
  have hsp_fig : ∀ d ∈ (str "\\@ref(fig:" ++ (id ++ str ")") : Str), d ≠ ' ' := by
    intro d hd
    rcases List.mem_append.mp hd with h | h
    · exact (by decide : ∀ x ∈ (str "\\@ref(fig:" : Str), x ≠ ' ') d h
    · rcases List.mem_append.mp h with h2 | h2
      · exact hid_sp d h2
      · exact (by decide : ∀ x ∈ (str ")" : Str), x ≠ ' ') d h2
  have hsp_tab : ∀ d ∈ (str "\\@ref(tab:" ++ (id ++ str ")") : Str), d ≠ ' ' := by
    intro d hd
    rcases List.mem_append.mp hd with h | h
    · exact (by decide : ∀ x ∈ (str "\\@ref(tab:" : Str), x ≠ ' ') d h
    · rcases List.mem_append.mp h with h2 | h2
      · exact hid_sp d h2
      · exact (by decide : ∀ x ∈ (str ")" : Str), x ≠ ' ') d h2
  have hsp_plain : ∀ d ∈ (str "\\@ref(" ++ (id ++ str ")") : Str), d ≠ ' ' := by
    intro d hd
    rcases List.mem_append.mp hd with h | h
    · exact (by decide : ∀ x ∈ (str "\\@ref(" : Str), x ≠ ' ') d h
    · rcases List.mem_append.mp h with h2 | h2
      · exact hid_sp d h2
      · exact (by decide : ∀ x ∈ (str ")" : Str), x ≠ ' ') d h2
  have hfig_bs : ∀ d ∈ Ch3.xrefFig id, d ≠ '\\' := by
    unfold Ch3.xrefFig
    exact Scan.mem_append3 _ _ _ (by decide)
      (Scan.hyph_chars _ (by decide) id hid_bs) (by decide)
  have htab_bs : ∀ d ∈ Ch3.xrefTab id, d ≠ '\\' := by
    unfold Ch3.xrefTab
    exact Scan.mem_append3 _ _ _ (by decide)
      (Scan.hyph_chars _ (by decide) id hid_bs) (by decide)
  have hplain_bs : ∀ d ∈ Ch3.xrefPlain id, d ≠ '\\' := by
    unfold Ch3.xrefPlain
    exact Scan.mem_append3 _ _ _ (by decide)
      (Scan.hyph_chars _ (by decide) id hid_bs) (by decide)
  have hu4 : ∀ d ∈ id,
      (Rx.Pat.classy (str "\\@ref(fig:") (str ")") [')']).bad d = false ∧ d ≠ ')' :=
    fun d hd => ⟨Scan.contains_singleton_false ')' d (hok d hd).1, (hok d hd).1⟩
  have hu6 : ∀ d ∈ id,
      (Rx.Pat.classy (str "\\@ref(tab:") (str ")") [')']).bad d = false ∧ d ≠ ')' :=
    fun d hd => ⟨Scan.contains_singleton_false ')' d (hok d hd).1, (hok d hd).1⟩
  have hu7 : ∀ d ∈ id,
      (Rx.Pat.classy (str "\\@ref(") (str ")") [')']).bad d = false ∧ d ≠ ')' :=
    fun d hd => ⟨Scan.contains_singleton_false ')' d (hok d hd).1, (hok d hd).1⟩
  have hlen : (0 : Nat) < id.length := List.length_pos.mpr hne
  refine ⟨?_, ?_, ?_, Scan.hyph_map id⟩
  · -- `\@ref(fig:X)`
    have e4 : Rx.subP (Rx.Pat.classy (str "\\@ref(fig:") (str ")") [')']) Ch3.xrefFig
        (str "\\@ref(fig:" ++ (id ++ str ")")) = Ch3.xrefFig id :=
      Scan.subP_fire_whole _ Ch3.xrefFig ')' '\\' (str "@ref(fig:") rfl rfl
        (fun _ => rfl) (fun _ => rfl) id hu4 hlen
    unfold Ch3.convertCrossRefs
    dsimp only
    rw [Scan.subP_id_char (Rx.Pat.classy (str "Chapter \\@ref(") (str ")") [')'])
        Ch3.xrefPlain _ ' ' (by decide) hsp_fig,
      Scan.subP_id_char (Rx.Pat.classy (str "Section \\@ref(") (str ")") [')'])
        Ch3.xrefPlain _ ' ' (by decide) hsp_fig,
      Scan.subP_id_char (Rx.Pat.classy (str "Figure \\@ref(fig:") (str ")") [')'])
        Ch3.xrefFig _ ' ' (by decide) hsp_fig,
      e4,
      Scan.subP_id_char (Rx.Pat.classy (str "Table \\@ref(tab:") (str ")") [')'])
        Ch3.xrefTab _ '\\' (by decide) hfig_bs,
      Scan.subP_id_char (Rx.Pat.classy (str "\\@ref(tab:") (str ")") [')'])
        Ch3.xrefTab _ '\\' (by decide) hfig_bs,
      Scan.subP_id_char (Rx.Pat.classy (str "\\@ref(") (str ")") [')'])
        Ch3.xrefPlain _ '\\' (by decide) hfig_bs]
    rfl
  · -- `\@ref(tab:X)`
    have e4 : Rx.subP (Rx.Pat.classy (str "\\@ref(fig:") (str ")") [')']) Ch3.xrefFig
        (str "\\@ref(tab:" ++ (id ++ str ")")) = str "\\@ref(tab:" ++ (id ++ str ")") :=
      Scan.subP_skip _ Ch3.xrefFig '\\' (str "@ref(fig:") (str "\\@ref(tab:")
        (str "\\@ref(") (str "fig:") (str "tab:") (id ++ str ")") ':'
        rfl rfl rfl (by decide) hM_co rfl Scan.sfx_tab
    have e6 : Rx.subP (Rx.Pat.classy (str "\\@ref(tab:") (str ")") [')']) Ch3.xrefTab
        (str "\\@ref(tab:" ++ (id ++ str ")")) = Ch3.xrefTab id :=
      Scan.subP_fire_whole _ Ch3.xrefTab ')' '\\' (str "@ref(tab:") rfl rfl
        (fun _ => rfl) (fun _ => rfl) id hu6 hlen
    unfold Ch3.convertCrossRefs
    dsimp only
    rw [Scan.subP_id_char (Rx.Pat.classy (str "Chapter \\@ref(") (str ")") [')'])
        Ch3.xrefPlain _ ' ' (by decide) hsp_tab,
      Scan.subP_id_char (Rx.Pat.classy (str "Section \\@ref(") (str ")") [')'])
        Ch3.xrefPlain _ ' ' (by decide) hsp_tab,
      Scan.subP_id_char (Rx.Pat.classy (str "Figure \\@ref(fig:") (str ")") [')'])
        Ch3.xrefFig _ ' ' (by decide) hsp_tab,
      e4,
      Scan.subP_id_char (Rx.Pat.classy (str "Table \\@ref(tab:") (str ")") [')'])
        Ch3.xrefTab _ ' ' (by decide) hsp_tab,
      e6,
      Scan.subP_id_char (Rx.Pat.classy (str "\\@ref(") (str ")") [')'])
        Ch3.xrefPlain _ '\\' (by decide) htab_bs]
    rfl
  · -- plain `\@ref(X)`
    have e4 : Rx.subP (Rx.Pat.classy (str "\\@ref(fig:") (str ")") [')']) Ch3.xrefFig
        (str "\\@ref(" ++ (id ++ str ")")) = str "\\@ref(" ++ (id ++ str ")") :=
      Scan.subP_skip _ Ch3.xrefFig '\\' (str "@ref(fig:") (str "\\@ref(")
        (str "\\@ref(") (str "fig:") [] (id ++ str ")") ':'
        rfl rfl rfl (by decide) hM_co
        (Scan.startsW_false_of_missing _ _ ':' (by decide)
          (fun hmem => hM_co ':' (by simpa using hmem) rfl))
        Scan.sfx_plain
    have e6 : Rx.subP (Rx.Pat.classy (str "\\@ref(tab:") (str ")") [')']) Ch3.xrefTab
        (str "\\@ref(" ++ (id ++ str ")")) = str "\\@ref(" ++ (id ++ str ")") :=
      Scan.subP_skip _ Ch3.xrefTab '\\' (str "@ref(tab:") (str "\\@ref(")
        (str "\\@ref(") (str "tab:") [] (id ++ str ")") ':'
        rfl rfl rfl (by decide) hM_co
        (Scan.startsW_false_of_missing _ _ ':' (by decide)
          (fun hmem => hM_co ':' (by simpa using hmem) rfl))
        Scan.sfx_plain
    have e7 : Rx.subP (Rx.Pat.classy (str "\\@ref(") (str ")") [')']) Ch3.xrefPlain
        (str "\\@ref(" ++ (id ++ str ")")) = Ch3.xrefPlain id :=
      Scan.subP_fire_whole _ Ch3.xrefPlain ')' '\\' (str "@ref(") rfl rfl
        (fun _ => rfl) (fun _ => rfl) id hu7 hlen
    unfold Ch3.convertCrossRefs
    dsimp only
    rw [Scan.subP_id_char (Rx.Pat.classy (str "Chapter \\@ref(") (str ")") [')'])
        Ch3.xrefPlain _ ' ' (by decide) hsp_plain,
      Scan.subP_id_char (Rx.Pat.classy (str "Section \\@ref(") (str ")") [')'])
        Ch3.xrefPlain _ ' ' (by decide) hsp_plain,
      Scan.subP_id_char (Rx.Pat.classy (str "Figure \\@ref(fig:") (str ")") [')'])
        Ch3.xrefFig _ ' ' (by decide) hsp_plain,
      e4,
      Scan.subP_id_char (Rx.Pat.classy (str "Table \\@ref(tab:") (str ")") [')'])
        Ch3.xrefTab _ ' ' (by decide) hsp_plain,
      e6, e7]
    rfl

/-- **C8** (witness): the theorem at the concrete id `my_plot`. -/
theorem claim_C8_witness :
    (str "my_plot" : Str) ≠ [] ∧
    (∀ c ∈ (str "my_plot" : Str), c ≠ ')' ∧ c ≠ '\\' ∧ c ≠ ':' ∧ c ≠ ' ') ∧
    (Ch3.convertCrossRefs (str "\\@ref(fig:" ++ (str "my_plot" ++ str ")")) =
      str "<xref ref=\"fig-" ++ Ch3.hyph (str "my_plot") ++ str "\" />" ∧
    Ch3.convertCrossRefs (str "\\@ref(tab:" ++ (str "my_plot" ++ str ")")) =
      str "<xref ref=\"table-" ++ Ch3.hyph (str "my_plot") ++ str "\" />" ∧
    Ch3.convertCrossRefs (str "\\@ref(" ++ (str "my_plot" ++ str ")")) =
      str "<xref ref=\"" ++ Ch3.hyph (str "my_plot") ++ str "\" />" ∧
    Ch3.hyph (str "my_plot") =
      (str "my_plot" : Str).map (fun c => if c = '_' then '-' else c)) :=
  ⟨by decide, by decide, claim_C8_crossrefs (str "my_plot") (by decide) (by decide)⟩

/-- **C9**.  The footnote recursion of `convert_ch6_bayes.py` has a
fixed effective depth ceiling: every recursion-depth budget beyond one
level computes the same function as the budget of exactly one level, on
*every* input — the footnote content class `[^\]]+` admits no `]`, no
preceding pass introduces one, and a `]`-free text makes the footnote
pass a no-op, so no input can drive the recursion deeper (first
conjunct).  A footnote whose content contains inline math and emphasis
resolves both correctly within that bound (second conjunct). -/
theorem claim_C9_footnote_recursion :
    (∀ (n : Nat) (esc : Bool) (t : Str),
      Bayes.convertInline (n + 1) esc t = Bayes.convertInline 1 esc t) ∧
    Bayes.fmt true (str "^[math $x<y$ and *emph*]") =
      str "<fn>math <m><![CDATA[x<y]]></m> and <em>emph</em></fn>" := by
  constructor
  · intro n esc t
    show Bayes.convertInlineCore (Bayes.convertInline n false) true esc t =
      Bayes.convertInlineCore (Bayes.convertInline 0 false) true esc t
    exact Bayes.core_congr _ _ esc t (Bayes.fnEq n)
  · decide

/-- **C10** (counterexample).  The classification is *not* "bare fence →
captured output, R-tagged fence → program": in `convert_ch6_bayes.py` an
R-tagged fence whose parameters set `output=TRUE` is flushed as a `pre`
block, not as an executable `program` element. -/
theorem claim_C10_counterexample :
    Bayes.convert [str "```{r output=TRUE}", str "x <- 1", str "```"] =
      [str "<?xml version=\"1.0\" encoding=\"UTF-8\" ?>", [],
       str "    <pre>", str "x <- 1", str "    </pre>"] := by decide

/-- **C10** (amended).  In `convert_ch6_bayes.py` the classification is
decided by the opening fence's *parameters*: a bare fence opens a block
with `output=True` forced, so for every nonempty run of ordinary content
lines it is flushed as a captured-output `pre` block, while a plain
```` ```{r} ```` fence (no parameters) opens a block flushed as an
executable `program` element with language `r`.  An R-tagged fence with
`output=TRUE` breaks the source half of the original claim, as the
counterexample shows. -/
theorem claim_C10_amended (cs : List Str) (hne : cs ≠ [])
    (hc : ∀ c ∈ cs, PyStr.startsW (str "```\x7br") c = false ∧ PyStr.strip c ≠ str "```") :
    Bayes.convert (str "```" :: cs ++ [str "```"]) =
      [str "<?xml version=\"1.0\" encoding=\"UTF-8\" ?>", [],
       str "    <pre>", PyStr.joinNL cs, str "    </pre>"] ∧
    Bayes.convert (str "```{r}" :: cs ++ [str "```"]) =
      [str "<?xml version=\"1.0\" encoding=\"UTF-8\" ?>", [],
       str "    <program language=\"r\">", str "      <input><![CDATA[",
       PyStr.joinNL cs, str "]]></input>", str "    </program>"] := by
  constructor
  · have h1 : Bayes.processLine
        { Bayes.initSt with
          output := [str "<?xml version=\"1.0\" encoding=\"UTF-8\" ?>", []] }
        (str "```") =
        { Bayes.initSt with
          output := [str "<?xml version=\"1.0\" encoding=\"UTF-8\" ?>", []]
          in_code_block := true
          code_block_params := [(str "output", Py.PVal.pbool true)] } := by decide
    have hfold : (str "```" :: cs ++ [str "```"]).foldl Bayes.processLine
        { Bayes.initSt with
          output := [str "<?xml version=\"1.0\" encoding=\"UTF-8\" ?>", []] } =
        { Bayes.initSt with
          output := [str "<?xml version=\"1.0\" encoding=\"UTF-8\" ?>", [],
            str "    <pre>", PyStr.joinNL cs, str "    </pre>"] } := by
      rw [List.cons_append, List.foldl_cons, h1, List.foldl_append,
        Bayes.code_accum cs hc
          { Bayes.initSt with
            output := [str "<?xml version=\"1.0\" encoding=\"UTF-8\" ?>", []]
            in_code_block := true
            code_block_params := [(str "output", Py.PVal.pbool true)] } (by exact rfl),
        List.foldl_cons, List.foldl_nil,
        Bayes.close_fence _ (by exact rfl),
        Bayes.flush_pre _ ?hne2 ?hout2]
      · simp [Bayes.initSt]
      case hne2 => simp [Bayes.initSt, hne]
      case hout2 =>
        exact (by decide : Py.dtruthy [(str "output", Py.PVal.pbool true)] (str "output") = true)
    rw [Bayes.convert_tail _ _ hfold (by rfl) (by rfl) (by rfl) (by rfl) (by rfl)]
  · have h1 : Bayes.processLine
        { Bayes.initSt with
          output := [str "<?xml version=\"1.0\" encoding=\"UTF-8\" ?>", []] }
        (str "```{r}") =
        { Bayes.initSt with
          output := [str "<?xml version=\"1.0\" encoding=\"UTF-8\" ?>", []]
          in_code_block := true } := by decide
    have hfold : (str "```{r}" :: cs ++ [str "```"]).foldl Bayes.processLine
        { Bayes.initSt with
          output := [str "<?xml version=\"1.0\" encoding=\"UTF-8\" ?>", []] } =
        { Bayes.initSt with
          output := [str "<?xml version=\"1.0\" encoding=\"UTF-8\" ?>", [],
            str "    <program language=\"r\">", str "      <input><![CDATA[",
            PyStr.joinNL cs, str "]]></input>", str "    </program>"] } := by
      rw [List.cons_append, List.foldl_cons, h1, List.foldl_append,
        Bayes.code_accum cs hc
          { Bayes.initSt with
            output := [str "<?xml version=\"1.0\" encoding=\"UTF-8\" ?>", []]
            in_code_block := true } (by exact rfl),
        List.foldl_cons, List.foldl_nil,
        Bayes.close_fence _ (by exact rfl),
        Bayes.flush_program _ ?hne3 ?hout3]
      · simp [Bayes.initSt]
      case hne3 => simp [Bayes.initSt, hne]
      case hout3 =>
        exact (by decide : Py.dtruthy ([] : Py.Dict) (str "output") = false)
    rw [Bayes.convert_tail _ _ hfold (by rfl) (by rfl) (by rfl) (by rfl) (by rfl)]

/-- **C10** (witness): the amended theorem at the one-line content run
`x <- 1`. -/
theorem claim_C10_witness :
    ([str "x <- 1"] : List Str) ≠ [] ∧
    (∀ c ∈ ([str "x <- 1"] : List Str),
      PyStr.startsW (str "```\x7br") c = false ∧ PyStr.strip c ≠ str "```") ∧
    Bayes.convert (str "```" :: [str "x <- 1"] ++ [str "```"]) =
      [str "<?xml version=\"1.0\" encoding=\"UTF-8\" ?>", [],
       str "    <pre>", PyStr.joinNL [str "x <- 1"], str "    </pre>"] ∧
    Bayes.convert (str "```{r}" :: [str "x <- 1"] ++ [str "```"]) =
      [str "<?xml version=\"1.0\" encoding=\"UTF-8\" ?>", [],
       str "    <program language=\"r\">", str "      <input><![CDATA[",
       PyStr.joinNL [str "x <- 1"], str "]]></input>", str "    </program>"] :=
  ⟨by decide, by decide,
    (claim_C10_amended [str "x <- 1"] (by decide) (by decide)).1,
    (claim_C10_amended [str "x <- 1"] (by decide) (by decide)).2⟩
